import Mathlib

/-!
Verification development for the `colourings` color library.

The Python sources `colour.py` and `definitions.py` are embedded shallowly:
Python floats become exact rationals (`ℚ`), lists become `List`, and raising
becomes `Except String`.  The repository's `identify.py` and `conversions.py`
modules are not present in the source tree; the validator predicates and the
conversion functions they provide are modelled from the specification and
carry a doc comment saying so.
-/

namespace Colourings

/-- Decidable equality of `Except` values, used to state concrete
input-output facts about the embedded functions. -/
instance {ε α : Type} [DecidableEq ε] [DecidableEq α] : DecidableEq (Except ε α)
  | .error e, .error f =>
    if h : e = f then .isTrue (by rw [h]) else .isFalse (by intro hh; cases hh; exact h rfl)
  | .error _, .ok _ => .isFalse (by intro h; cases h)
  | .ok _, .error _ => .isFalse (by intro h; cases h)
  | .ok a, .ok b =>
    if h : a = b then .isTrue (by rw [h]) else .isFalse (by intro hh; cases hh; exact h rfl)

/-- From definitions.py: FLOAT_ERROR = 0.0000005, the tolerance used to
soften floating-point range checks. -/
def FLOAT_ERROR : ℚ := 5 / 10000000

/-- Python's `%` operator on floats, for a positive modulus: the remainder
with the sign of the divisor, `x - m * floor (x / m)`. -/
def qmod (x m : ℚ) : ℚ := x - m * ⌊x / m⌋

/-- Python's `round` to the nearest integer with ties going to the even
integer (banker's rounding), on exact rationals. -/
def roundHalfEven (x : ℚ) : ℤ :=
  if x - ⌊x⌋ < 1 / 2 then ⌊x⌋
  else if 1 / 2 < x - ⌊x⌋ then ⌊x⌋ + 1
  else if ⌊x⌋ % 2 = 0 then ⌊x⌋ else ⌊x⌋ + 1

/-- Python's `round(x, 7)`: round to 7 decimal places (ties to even). -/
def roundTo7 (x : ℚ) : ℚ := (roundHalfEven (x * 10000000) : ℚ) / 10000000

/-- From definitions.py: pure-Python reimplementation of `numpy.linspace`.
Returns `num` evenly spaced rationals from `start` to `stop` (endpoint
included by default). -/
def linspace (start stop : ℚ) (num : ℕ) (endpoint : Bool := true) : List ℚ :=
  if num = 0 then []
  else if num = 1 then [start]
  else
    let step := if endpoint then (stop - start) / ((num : ℚ) - 1)
                else (stop - start) / (num : ℚ)
    (List.range num).map fun i : ℕ => start + step * (i : ℚ)

/-- An HSL triple: hue, saturation, lightness. -/
abbrev HSL := ℚ × ℚ × ℚ

/-- Modelled from the spec: the range test shared by the validators of
`identify.py` (a module absent from the source tree): a component lies in
`[lo, hi]`, softened by `FLOAT_ERROR` at both ends. -/
def inRange (lo hi x : ℚ) : Bool :=
  decide (lo - FLOAT_ERROR ≤ x) && decide (x ≤ hi + FLOAT_ERROR)

/-- Modelled from the spec: core range rule of `is_rgb` from the absent
`identify.py` on a numeric triple: three components, each in `[0, 255]`. -/
def is_rgbT (r g b : ℚ) : Bool :=
  inRange 0 255 r && inRange 0 255 g && inRange 0 255 b

/-- Modelled from the spec: core range rule of `is_hsl` from the absent
`identify.py` on a numeric triple: hue in `[0, 360)`, saturation and
lightness in `[0, 1]`. -/
def is_hslT (h s l : ℚ) : Bool :=
  (decide (0 - FLOAT_ERROR ≤ h) && decide (h < 360)) &&
    inRange 0 1 s && inRange 0 1 l

/-! ## The scale interpolator, from colour.py (`color_scale`) -/

/-- Pointwise pairing of three equally long lists into HSL triples,
mirroring `zip(hs, ss, ls, strict=False)` (stops at the shortest list). -/
def zip3 : List ℚ → List ℚ → List ℚ → List HSL
  | h :: hs, s :: ss, l :: ls => (h, s, l) :: zip3 hs ss ls
  | _, _, _ => []

/-- One iteration body of the `color_scale` loop in colour.py: the list
`add` of interpolated HSL triples for the segment between anchors `c1` and
`c2`, produced from `num` linearly spaced points (hues normalised to
`[0,1]`, shifted by a full turn to select the longer or shorter arc, then
rescaled and wrapped modulo 360). -/
def sectionColors (c1 c2 : HSL) (longer : Bool) (num : ℕ) : List HSL :=
  let h1 := c1.1 / 360
  let h2 := c2.1 / 360
  let p : ℚ × ℚ :=
    if longer = decide (|h1 - h2| < 1 / 2) then
      if h1 < h2 then (h1 + 1, h2) else (h1, h2 + 1)
    else (h1, h2)
  let hs := (linspace p.1 p.2 num).map fun v => qmod (v * 360) 360
  let ss := linspace c1.2.1 c2.2.1 num
  let ls := linspace c1.2.2 c2.2.2 num
  zip3 hs ss ls

/-- The test deciding whether loop iteration `i` of `color_scale` receives
one extra interior point: `round(remainder * (i + 1) - added, 7) >= 1`. -/
def extraCond (frac : ℚ) (i added : ℕ) : Bool :=
  decide (1 ≤ roundTo7 (frac * ((i : ℚ) + 1) - (added : ℚ)))

/-- The value of the `added` counter of the `color_scale` loop at the start
of iteration `i` (number of extra points granted to iterations `0..i-1`). -/
def addedSeq (frac : ℚ) : ℕ → ℕ
  | 0 => 0
  | i + 1 => addedSeq frac i + (if extraCond frac i (addedSeq frac i) then 1 else 0)

/-- The main loop of `color_scale` in colour.py, recursing over the list of
adjacent anchor pairs with the loop index `i` and the `added` counter.
Every segment after the first drops its leading colour (the shared anchor). -/
def scaleGo (longer : Bool) (q : ℕ) (frac : ℚ) :
    List (HSL × HSL) → ℕ → ℕ → List HSL
  | [], _, _ => []
  | (c1, c2) :: rest, i, added =>
    let ex := extraCond frac i added
    let numColors := q + 2 + (if ex then 1 else 0)
    let add := sectionColors c1 c2 longer numColors
    (if i = 0 then add else add.drop 1) ++
      scaleGo longer q frac rest (i + 1) (added + if ex then 1 else 0)

/-- The list of adjacent anchor pairs walked by the `color_scale` loop. -/
def adjPairs (l : List HSL) : List (HSL × HSL) := l.zip l.tail

/-- The interpolation part of `color_scale` (everything after the two input
checks): `num_steps_per_iter` by floor division, the fractional `remainder`,
then the loop over all sections. -/
def scaleList (colors : List HSL) (numSteps : ℕ) (longer : Bool) : List HSL :=
  let numSections := colors.length - 1
  let q := (numSteps - colors.length) / numSections
  let frac := qmod (((numSteps : ℚ) - (colors.length : ℚ)) / (numSections : ℚ)) 1
  scaleGo longer q frac (adjPairs colors) 0 0

/-- From colour.py: `color_scale(colors, num_steps, longer)`.  The two
`raise ValueError` checks become `Except.error`; each interpolated triple is
wrapped in `Color(hsl=...)`, whose `set_hsl` raises when the triple fails
`is_hsl`, so the result list is validated before being returned. -/
def color_scale (colors : List HSL) (numSteps : ℕ) (longer : Bool := false) :
    Except String (List HSL) :=
  if colors.length < 2 then
    .error "At least two colours are required to make a scale."
  else if numSteps < colors.length then
    .error "Number of steps must be greater than or equal to the number of colors."
  else
    let out := scaleList colors numSteps longer
    if out.all fun c => is_hslT c.1 c.2.1 c.2.2 then .ok out
    else .error "Value is not a valid HSL"

/-! ## Converters, modelled from the spec (conversions.py is absent) -/

/-- Modelled from the spec: the standard hue-to-RGB helper used by
`hsl2rgb` in the absent `conversions.py`, with the hue argument first
wrapped into `[0, 1)` (the helper's while-loops add or subtract full
turns). -/
def hue2rgb (v1 v2 vH : ℚ) : ℚ :=
  let h := vH - ⌊vH⌋
  if 6 * h < 1 then v1 + (v2 - v1) * 6 * h
  else if 2 * h < 1 then v2
  else if 3 * h < 2 then v1 + (v2 - v1) * (2 / 3 - h) * 6
  else v1

/-- Modelled from the spec: the conversion core of `hsl2rgb` from the
absent `conversions.py`: inverse of the min/max formula via `hue2rgb` with
1/3 and 2/3 phase offsets, channels scaled to `[0, 255]`; achromatic when
saturation is zero. -/
def hsl2rgbCore (h s l : ℚ) : ℚ × ℚ × ℚ :=
  if s = 0 then (255 * l, 255 * l, 255 * l)
  else
    let v2 := if l < 1 / 2 then l * (1 + s) else l + s - s * l
    let v1 := 2 * l - v2
    let hN := h / 360
    (255 * hue2rgb v1 v2 (hN + 1 / 3),
     255 * hue2rgb v1 v2 hN,
     255 * hue2rgb v1 v2 (hN - 1 / 3))

/-- Modelled from the spec: `hsl2rgb` from the absent `conversions.py`;
validates its input first and fails with an invalid-input error. -/
def hsl2rgb (c : HSL) : Except String (ℚ × ℚ × ℚ) :=
  if is_hslT c.1 c.2.1 c.2.2 then .ok (hsl2rgbCore c.1 c.2.1 c.2.2)
  else .error "Value is not a valid HSL"

/-- Modelled from the spec: the conversion core of `rgb2hsl` from the
absent `conversions.py`: channels normalised to `[0, 1]`, lightness
`(max + min) / 2`, saturation 0 when achromatic else the standard chroma
ratio, hue from the 60-degree sector formula of the maximal channel,
wrapped into `[0, 360)`. -/
def rgb2hslCore (r0 g0 b0 : ℚ) : HSL :=
  let r := r0 / 255
  let g := g0 / 255
  let b := b0 / 255
  let mx := max r (max g b)
  let mn := min r (min g b)
  let d := mx - mn
  let l := (mx + mn) / 2
  let h :=
    if mx = mn then 0
    else if mx = r then qmod (60 * ((g - b) / d) + 360) 360
    else if mx = g then qmod (60 * ((b - r) / d) + 120) 360
    else qmod (60 * ((r - g) / d) + 240) 360
  let s :=
    if mx = mn then 0
    else if l ≤ 1 / 2 then d / (2 * l)
    else d / (2 - 2 * l)
  (h, s, l)

/-- Modelled from the spec: `rgb2hsl` from the absent `conversions.py`;
validates its input first and fails with an invalid-input error. -/
def rgb2hsl (c : ℚ × ℚ × ℚ) : Except String HSL :=
  if is_rgbT c.1 c.2.1 c.2.2 then .ok (rgb2hslCore c.1 c.2.1 c.2.2)
  else .error "Value is not a valid RGB"

/-- Lowercase hexadecimal digit for a value below 16. -/
def hexDigitChar (n : ℕ) : Char :=
  if n < 10 then Char.ofNat (48 + n) else Char.ofNat (87 + n)

/-- An RGB channel value rounded to its 8-bit byte. -/
def toByte (x : ℚ) : ℕ := (roundHalfEven x).toNat

/-- Modelled from the spec: the formatting core of `rgb2hex` from the
absent `conversions.py`: two lowercase hex digits per 8-bit channel,
collapsed to the 3-digit shorthand when every channel byte is a repeated
nibble and the force-long flag is off. -/
def rgb2hexCore (rgb : ℚ × ℚ × ℚ) (forceLong : Bool) : String :=
  let b1 := toByte rgb.1
  let b2 := toByte rgb.2.1
  let b3 := toByte rgb.2.2
  let d1 := hexDigitChar (b1 / 16)
  let d2 := hexDigitChar (b1 % 16)
  let d3 := hexDigitChar (b2 / 16)
  let d4 := hexDigitChar (b2 % 16)
  let d5 := hexDigitChar (b3 / 16)
  let d6 := hexDigitChar (b3 % 16)
  if !forceLong && decide (d1 = d2) && decide (d3 = d4) && decide (d5 = d6) then
    String.mk ['#', d1, d3, d5]
  else
    String.mk ['#', d1, d2, d3, d4, d5, d6]

/-- Modelled from the spec: `rgb2hex` from the absent `conversions.py`;
validates its input first and fails with an invalid-input error. -/
def rgb2hex (rgb : ℚ × ℚ × ℚ) (forceLong : Bool := false) :
    Except String String :=
  if is_rgbT rgb.1 rgb.2.1 rgb.2.2 then .ok (rgb2hexCore rgb forceLong)
  else .error "Value is not a valid RGB"

/-- Display form of an interpolated HSL triple as a hex string, through
`hsl2rgb` and `rgb2hex`, as the spec's scale examples do. -/
def hslHex (c : HSL) : Except String String :=
  (hsl2rgb c).bind fun rgb => rgb2hex rgb

/-! ## The Python value universe and the validators of identify.py -/

/-- Canonical internal state of a `Color` object: an HSL triple plus an
alpha component. -/
structure ColorData where
  hsl : HSL
  alpha : ℚ

/-- A `Color` (or `Colour`) object: its data together with its configurable
equality strategy, as stored by `Color.__init__`. -/
structure ColorObj where
  data : ColorData
  equality : ColorData → ColorData → Bool

/-- Universe of Python values a validator or `identify_color` may receive:
numbers, strings, `Color` objects, sequences, and anything else (classes,
None, ...). -/
inductive PyVal where
  | num (q : ℚ)
  | str (s : String)
  | colorVal (c : ColorObj)
  | list (xs : List PyVal)
  | other

/-- A numeric Python value, extracted. -/
def asNum : PyVal → Option ℚ
  | .num q => some q
  | _ => none

/-- The elements of a list of Python values, when all are numeric. -/
def asNums : List PyVal → Option (List ℚ)
  | [] => some []
  | v :: t =>
    match asNum v, asNums t with
    | some q, some qs => some (q :: qs)
    | _, _ => none

/-- A 3-element all-numeric sequence, extracted as a triple. -/
def asNumTriple (v : PyVal) : Option (ℚ × ℚ × ℚ) :=
  match v with
  | .list xs =>
    match asNums xs with
    | some [a, b, c] => some (a, b, c)
    | _ => none
  | _ => none

/-- A 4-element all-numeric sequence, extracted as a quadruple. -/
def asNumQuad (v : PyVal) : Option (ℚ × ℚ × ℚ × ℚ) :=
  match v with
  | .list xs =>
    match asNums xs with
    | some [a, b, c, d] => some (a, b, c, d)
    | _ => none
  | _ => none

/-- Modelled from the spec: `is_rgb` from the absent `identify.py`:
3 numbers, each in `[0, 255]`; false on any other shape, never raising. -/
def is_rgb (v : PyVal) : Bool :=
  match asNumTriple v with
  | some (r, g, b) => is_rgbT r g b
  | none => false

/-- Modelled from the spec: `is_rgbf` from the absent `identify.py`:
3 numbers, each in `[0, 1]`; false on any other shape, never raising. -/
def is_rgbf (v : PyVal) : Bool :=
  match asNumTriple v with
  | some (r, g, b) => inRange 0 1 r && inRange 0 1 g && inRange 0 1 b
  | none => false

/-- Modelled from the spec: `is_rgba` from the absent `identify.py`:
4 numbers, the first three per the `is_rgb` rule and the alpha in `[0, 1]`;
false on any other shape, never raising. -/
def is_rgba (v : PyVal) : Bool :=
  match asNumQuad v with
  | some (r, g, b, a) => is_rgbT r g b && inRange 0 1 a
  | none => false

/-- Modelled from the spec: `is_rgbaf` from the absent `identify.py`:
4 numbers, the first three per the `is_rgbf` rule and the alpha in
`[0, 1]`; false on any other shape, never raising. -/
def is_rgbaf (v : PyVal) : Bool :=
  match asNumQuad v with
  | some (r, g, b, a) =>
    inRange 0 1 r && inRange 0 1 g && inRange 0 1 b && inRange 0 1 a
  | none => false

/-- Modelled from the spec: `is_hsl` from the absent `identify.py`: hue in
`[0, 360)`, saturation and lightness in `[0, 1]`; false on any other
shape, never raising. -/
def is_hsl (v : PyVal) : Bool :=
  match asNumTriple v with
  | some (h, s, l) => is_hslT h s l
  | none => false

/-- Modelled from the spec: `is_hsla` from the absent `identify.py`: the
`is_hsl` rule plus an alpha in `[0, 1]`; false on any other shape, never
raising. -/
def is_hsla (v : PyVal) : Bool :=
  match asNumQuad v with
  | some (h, s, l, a) => is_hslT h s l && inRange 0 1 a
  | none => false

/-- Hexadecimal digit test for a character (matches `[0-9a-fA-F]`). -/
def isHexDigitC (c : Char) : Bool :=
  (decide ('0' ≤ c) && decide (c ≤ '9')) ||
    (decide ('a' ≤ c) && decide (c ≤ 'f')) ||
    (decide ('A' ≤ c) && decide (c ≤ 'F'))

/-- Shape test for a hex color string: a hash sign followed by exactly `n`
hexadecimal digits. -/
def isHexShape (s : String) (n : ℕ) : Bool :=
  match s.data with
  | '#' :: rest => decide (rest.length = n) && rest.all isHexDigitC
  | _ => false

/-- Modelled from the spec: `is_short_hex` from the absent `identify.py`:
a string matching `#` plus exactly 3 hex digits; false otherwise, never
raising. -/
def is_short_hex (v : PyVal) : Bool :=
  match v with
  | .str s => isHexShape s 3
  | _ => false

/-- Modelled from the spec: `is_long_hex` from the absent `identify.py`:
a string matching `#` plus exactly 6 hex digits; false otherwise, never
raising. -/
def is_long_hex (v : PyVal) : Bool :=
  match v with
  | .str s => isHexShape s 6
  | _ => false

/-- The lowercase color names of COLOR_NAME_TO_RGB from definitions.py, in
declaration order. -/
def COLOR_NAMES : List String :=
  ["black", "navy", "navyblue", "darkblue", "mediumblue", "blue",
   "darkgreen", "green", "darkcyan", "teal", "deepskyblue", "darkturquoise",
   "mediumspringgreen", "lime", "springgreen", "cyan", "aqua",
   "midnightblue", "dodgerblue", "lightseagreen", "forestgreen", "seagreen",
   "darkslategray", "darkslategrey", "limegreen", "mediumseagreen",
   "turquoise", "royalblue", "steelblue", "darkslateblue",
   "mediumturquoise", "indigo", "darkolivegreen", "cadetblue",
   "cornflowerblue", "rebeccapurple", "mediumaquamarine", "dimgray",
   "dimgrey", "slateblue", "olivedrab", "slategray", "slategrey",
   "lightslategray", "lightslategrey", "mediumslateblue", "lawngreen",
   "chartreuse", "aquamarine", "maroon", "purple", "olive", "gray", "grey",
   "lightslateblue", "skyblue", "lightskyblue", "blueviolet", "darkred",
   "darkmagenta", "saddlebrown", "darkseagreen", "lightgreen",
   "mediumpurple", "darkviolet", "palegreen", "darkorchid", "yellowgreen",
   "sienna", "brown", "darkgray", "darkgrey", "lightblue", "greenyellow",
   "paleturquoise", "lightsteelblue", "powderblue", "firebrick",
   "darkgoldenrod", "mediumorchid", "rosybrown", "darkkhaki", "silver",
   "mediumvioletred", "indianred", "peru", "violetred", "chocolate", "tan",
   "lightgray", "lightgrey", "thistle", "orchid", "goldenrod",
   "palevioletred", "crimson", "gainsboro", "plum", "burlywood",
   "lightcyan", "lavender", "darksalmon", "violet", "lightgoldenrod",
   "palegoldenrod", "lightcoral", "khaki", "aliceblue", "honeydew", "azure",
   "sandybrown", "wheat", "beige", "whitesmoke", "mintcream", "ghostwhite",
   "salmon", "antiquewhite", "linen", "lightgoldenrodyellow", "oldlace",
   "red", "magenta", "fuchsia", "deeppink", "orangered", "tomato",
   "hotpink", "coral", "darkorange", "lightsalmon", "orange", "lightpink",
   "pink", "gold", "peachpuff", "navajowhite", "moccasin", "bisque",
   "mistyrose", "blanchedalmond", "papayawhip", "lavenderblush", "seashell",
   "cornsilk", "lemonchiffon", "floralwhite", "snow", "yellow",
   "lightyellow", "ivory", "white"]

/-- Modelled from the spec: `is_web` from the absent `identify.py`: a
string that case-insensitively matches a known color name, or a valid long
or short hex string; false otherwise, never raising. -/
def is_web (v : PyVal) : Bool :=
  match v with
  | .str s => COLOR_NAMES.contains s.toLower || isHexShape s 6 || isHexShape s 3
  | _ => false

/-! ## The format identifier, from colour.py (`identify_color`) -/

/-- Python `isinstance(v, Sequence)`: strings and lists both qualify. -/
def isSeq : PyVal → Bool
  | .str _ => true
  | .list _ => true
  | _ => false

/-- Python `len` for the sequence values of `PyVal` (0 elsewhere; the code
only calls it behind an `isSeq` guard). -/
def seqLen : PyVal → ℕ
  | .str s => s.length
  | .list xs => xs.length
  | _ => 0

/-- Python `isinstance(v, str)`. -/
def isStr : PyVal → Bool
  | .str _ => true
  | _ => false

/-- Python `isinstance(v, Color | Colour)`. -/
def isColorObj : PyVal → Bool
  | .colorVal _ => true
  | _ => false

/-- The classifier returned by `identify_color`: which conversion turns the
value into canonical HSL. -/
inductive ColorFunc where
  | objHSL
  | hexToHsl
  | webToHsl
  | rgbToHsl
  | identityHsl
deriving DecidableEq

/-- From colour.py: `identify_color(color)`.  Two ambiguity checks first
(3-element RGB/HSL overlap, then 4-element RGBA/HSLA overlap), then the
dispatch chain; the rgba and hsla dispatch branches of the source are
commented out, so 4-element sequences always fall through to the final
failure. -/
def identify_color (color : PyVal) : Except String ColorFunc :=
  if isSeq color && decide (seqLen color = 3) && is_rgb color && is_hsl color then
    .error "Cannot determine whether color is RGB or HSL."
  else if isSeq color && decide (seqLen color = 4) && is_rgba color && is_hsla color then
    .error "Cannot determine whether color is RGBA or HSLA."
  else if isColorObj color then .ok .objHSL
  else if isStr color && (is_long_hex color || is_short_hex color) then .ok .hexToHsl
  else if isStr color && is_web color then .ok .webToHsl
  else if isSeq color && is_rgb color then .ok .rgbToHsl
  else if isSeq color && is_hsl color then .ok .identityHsl
  else .error "Cannot identify color."

/-! ## Color equality, from colour.py -/

/-- From colour.py: the `hex_l` property of a `Color`, namely
`rgb2hex(hsl2rgb(hsl), force_long=True)` on its canonical HSL state (a
`Color` object's stored HSL is always valid, so the conversion cores
apply). -/
def ColorData.hex_l (d : ColorData) : String :=
  rgb2hexCore (hsl2rgbCore d.hsl.1 d.hsl.2.1 d.hsl.2.2) true

/-- From colour.py: `RGB_equivalence(c1, c2)`, comparing long hex forms. -/
def RGB_equivalence (c1 c2 : ColorData) : Bool :=
  decide (c1.hex_l = c2.hex_l)

/-- From colour.py: `HSL_equivalence(c1, c2)`, comparing internal `_hsl`. -/
def HSL_equivalence (c1 c2 : ColorData) : Bool :=
  decide (c1.hsl = c2.hsl)

/-- From colour.py: `Color.__eq__`: against another `Color` or `Colour`
the left operand's equality strategy decides; against anything else the
method raises `NotImplementedError`. -/
def colorEq (c : ColorObj) (v : PyVal) : Except String Bool :=
  match v with
  | .colorVal o => .ok (c.equality c.data o.data)
  | _ => .error "Other object must be of type `Color` or `Colour`"

/-! ## Arithmetic lemmas: qmod, banker's rounding, the added counter -/

lemma qmod_nonneg (x m : ℚ) (hm : 0 < m) : 0 ≤ qmod x m := by
  unfold qmod
  have h := Int.floor_le (x / m)
  have h2 : (⌊x / m⌋ : ℚ) * m ≤ x / m * m :=
    mul_le_mul_of_nonneg_right h (le_of_lt hm)
  rw [div_mul_cancel₀ _ (ne_of_gt hm)] at h2
  linarith

lemma qmod_lt (x m : ℚ) (hm : 0 < m) : qmod x m < m := by
  unfold qmod
  have h := Int.lt_floor_add_one (x / m)
  have h2 : x < ((⌊x / m⌋ : ℚ) + 1) * m := by
    rw [← div_lt_iff hm]; linarith
  nlinarith

lemma qmod_eq_self {x m : ℚ} (hm : 0 < m) (h0 : 0 ≤ x) (h1 : x < m) :
    qmod x m = x := by
  unfold qmod
  have hz : ⌊x / m⌋ = 0 := by
    rw [Int.floor_eq_zero_iff, Set.mem_Ico]
    exact ⟨div_nonneg h0 (le_of_lt hm), (div_lt_one hm).mpr h1⟩
  rw [hz]
  push_cast
  ring

lemma qmod_add_cancel {x m : ℚ} (hm : 0 < m) : qmod (x + m) m = qmod x m := by
  unfold qmod
  have h : (x + m) / m = x / m + 1 := by
    field_simp
  rw [h, Int.floor_add_one]
  push_cast
  ring

lemma roundHalfEven_intCast (n : ℤ) : roundHalfEven (n : ℚ) = n := by
  unfold roundHalfEven
  rw [Int.floor_intCast]
  norm_num

lemma roundHalfEven_ge_iff (y : ℚ) :
    10000000 ≤ roundHalfEven y ↔ (10000000 : ℚ) - 1 / 2 ≤ y := by
  unfold roundHalfEven
  have hl : (⌊y⌋ : ℚ) ≤ y := Int.floor_le y
  have hu : y < ⌊y⌋ + 1 := Int.lt_floor_add_one y
  obtain ⟨f, hf⟩ : ∃ f, ⌊y⌋ = f := ⟨⌊y⌋, rfl⟩
  rw [hf] at hl hu ⊢
  split_ifs with h1 h2 h3
  · constructor
    · intro h
      have hc : (10000000 : ℚ) ≤ (f : ℚ) := by exact_mod_cast h
      linarith
    · intro h
      have hc : (9999999 : ℚ) < (f : ℚ) := by linarith
      have hz : (9999999 : ℤ) < f := by exact_mod_cast hc
      omega
  · constructor
    · intro h
      have hz : (9999999 : ℤ) ≤ f := by omega
      have hc : (9999999 : ℚ) ≤ (f : ℚ) := by exact_mod_cast hz
      linarith
    · intro h
      have hc : (9999998 : ℚ) < (f : ℚ) := by linarith
      have hz : (9999998 : ℤ) < f := by exact_mod_cast hc
      omega
  · have hy : y = (f : ℚ) + 1 / 2 := by linarith
    constructor
    · intro h
      have hc : (10000000 : ℚ) ≤ (f : ℚ) := by exact_mod_cast h
      linarith
    · intro h
      have hc : (9999998 : ℚ) < (f : ℚ) := by linarith
      have hz : (9999998 : ℤ) < f := by exact_mod_cast hc
      omega
  · have hy : y = (f : ℚ) + 1 / 2 := by linarith
    constructor
    · intro h
      have hz : (9999999 : ℤ) ≤ f := by omega
      have hc : (9999999 : ℚ) ≤ (f : ℚ) := by exact_mod_cast hz
      linarith
    · intro h
      have hc : (9999998 : ℚ) < (f : ℚ) := by linarith
      have hz : (9999998 : ℤ) < f := by exact_mod_cast hc
      omega

lemma roundTo7_ge_one_iff (x : ℚ) :
    1 ≤ roundTo7 x ↔ 1 - 1 / 20000000 ≤ x := by
  unfold roundTo7
  rw [le_div_iff (by norm_num : (0 : ℚ) < 10000000), one_mul]
  have hcast : (10000000 : ℚ) ≤ (roundHalfEven (x * 10000000) : ℚ) ↔
      10000000 ≤ roundHalfEven (x * 10000000) := by
    exact_mod_cast Iff.rfl
  rw [hcast, roundHalfEven_ge_iff]
  constructor <;> intro h <;> linarith

lemma extraCond_iff (frac : ℚ) (i added : ℕ) :
    extraCond frac i added = true ↔
      (added : ℚ) + 1 ≤ frac * ((i : ℚ) + 1) + 1 / 20000000 := by
  unfold extraCond
  rw [decide_eq_true_eq, roundTo7_ge_one_iff]
  constructor <;> intro h <;> linarith

lemma addedSeq_cast_eq (frac : ℚ) (h0 : 0 ≤ frac) (h1 : frac < 1) :
    ∀ i : ℕ, (addedSeq frac i : ℤ) = ⌊frac * (i : ℚ) + 1 / 20000000⌋ := by
  intro i
  induction i with
  | zero =>
    simp only [addedSeq, Nat.cast_zero, mul_zero, zero_add]
    symm
    rw [Int.floor_eq_zero_iff, Set.mem_Ico]
    norm_num
  | succ n ih =>
    have hfl : ((addedSeq frac n : ℤ) : ℚ) ≤ frac * (n : ℚ) + 1 / 20000000 := by
      rw [ih]; exact Int.floor_le _
    have hfu : frac * (n : ℚ) + 1 / 20000000 < (addedSeq frac n : ℤ) + 1 := by
      rw [ih]; exact Int.lt_floor_add_one _
    push_cast at hfl hfu
    by_cases hex : extraCond frac n (addedSeq frac n) = true
    · have hge := (extraCond_iff frac n (addedSeq frac n)).mp hex
      have : addedSeq frac (n + 1) = addedSeq frac n + 1 := by
        simp [addedSeq, hex]
      rw [this]
      symm
      rw [Int.floor_eq_iff]
      push_cast
      constructor <;> nlinarith
    · have hlt : ¬ ((addedSeq frac n : ℚ) + 1 ≤ frac * ((n : ℚ) + 1) + 1 / 20000000) :=
        fun hc => hex ((extraCond_iff frac n (addedSeq frac n)).mpr hc)
      push_neg at hlt
      have heq : addedSeq frac (n + 1) = addedSeq frac n := by
        simp [addedSeq, hex]
      rw [heq]
      symm
      rw [Int.floor_eq_iff]
      push_cast
      constructor
      · nlinarith
      · nlinarith

lemma addedSeq_le_succ (frac : ℚ) (i : ℕ) :
    addedSeq frac i ≤ addedSeq frac (i + 1) := by
  simp only [addedSeq]
  split <;> omega

lemma addedSeq_mono (frac : ℚ) : Monotone (addedSeq frac) :=
  monotone_nat_of_le_succ (addedSeq_le_succ frac)

/-! ## linspace, zip3 and sectionColors lemmas -/

lemma zip3_map (f g h : ℕ → ℚ) (l : List ℕ) :
    zip3 (l.map f) (l.map g) (l.map h) = l.map fun i => (f i, g i, h i) := by
  induction l with
  | nil => simp [zip3]
  | cons a l ih => simp [zip3, ih]

lemma linspace_eq_map (a b : ℚ) {num : ℕ} (h : 2 ≤ num) :
    linspace a b num =
      (List.range num).map fun i : ℕ => a + (b - a) / ((num : ℚ) - 1) * (i : ℚ) := by
  have h0 : num ≠ 0 := by omega
  have h1 : num ≠ 1 := by omega
  simp [linspace, h0, h1]

lemma linspace_length (a b : ℚ) (num : ℕ) : (linspace a b num).length = num := by
  rcases Nat.lt_or_ge num 2 with h | h
  · interval_cases num <;> simp [linspace]
  · rw [linspace_eq_map a b h, List.length_map, List.length_range]

/-- The validity invariant a `Color` object's stored HSL always satisfies:
hue in `[0, 360)`, saturation and lightness in `[0, 1]`. -/
def validHSL (c : HSL) : Prop :=
  0 ≤ c.1 ∧ c.1 < 360 ∧ 0 ≤ c.2.1 ∧ c.2.1 ≤ 1 ∧ 0 ≤ c.2.2 ∧ c.2.2 ≤ 1

/-- Pointwise form of one interpolated colour of a section: hue travels
from `u` to `v` (normalised, possibly shifted by one turn) and is wrapped,
saturation and lightness interpolate linearly. -/
def secFun (u v s1 s2 l1 l2 : ℚ) (num : ℕ) (i : ℕ) : HSL :=
  (qmod ((u + (v - u) / ((num : ℚ) - 1) * (i : ℚ)) * 360) 360,
   s1 + (s2 - s1) / ((num : ℚ) - 1) * (i : ℚ),
   l1 + (l2 - l1) / ((num : ℚ) - 1) * (i : ℚ))

lemma sectionColors_eq_map (c1 c2 : HSL) (longer : Bool) {num : ℕ} (h : 2 ≤ num) :
    ∃ u v : ℚ,
      (u = c1.1 / 360 ∨ u = c1.1 / 360 + 1) ∧
      (v = c2.1 / 360 ∨ v = c2.1 / 360 + 1) ∧
      sectionColors c1 c2 longer num =
        (List.range num).map (secFun u v c1.2.1 c2.2.1 c1.2.2 c2.2.2 num) := by
  simp only [sectionColors]
  rw [linspace_eq_map _ _ h, linspace_eq_map _ _ h, linspace_eq_map _ _ h, List.map_map]
  split_ifs with hb hlt
  · exact ⟨c1.1 / 360 + 1, c2.1 / 360, Or.inr rfl, Or.inl rfl, by rw [zip3_map]; rfl⟩
  · exact ⟨c1.1 / 360, c2.1 / 360 + 1, Or.inl rfl, Or.inr rfl, by rw [zip3_map]; rfl⟩
  · exact ⟨c1.1 / 360, c2.1 / 360, Or.inl rfl, Or.inl rfl, by rw [zip3_map]; rfl⟩

lemma sectionColors_length (c1 c2 : HSL) (longer : Bool) {num : ℕ} (h : 2 ≤ num) :
    (sectionColors c1 c2 longer num).length = num := by
  obtain ⟨u, v, _, _, heq⟩ := sectionColors_eq_map c1 c2 longer h
  rw [heq, List.length_map, List.length_range]

lemma qmod_turn {x : ℚ} (h0 : 0 ≤ x) (h1 : x < 360) : qmod (x + 360) 360 = x := by
  rw [qmod_add_cancel (by norm_num), qmod_eq_self (by norm_num) h0 h1]

lemma secFun_zero {u v s1 s2 l1 l2 : ℚ} {num : ℕ} (hu0 : 0 ≤ u * 360)
    (hu1 : u * 360 < 360) : secFun u v s1 s2 l1 l2 num 0 = (u * 360, s1, l1) := by
  unfold secFun
  push_cast
  rw [mul_zero, mul_zero, mul_zero, add_zero, add_zero, add_zero]
  rw [qmod_eq_self (by norm_num) hu0 hu1]

lemma secFun_last {u v s1 s2 l1 l2 : ℚ} {num : ℕ} (h : 2 ≤ num)
    (hv0 : 0 ≤ v * 360) (hv1 : v * 360 < 360) :
    secFun u v s1 s2 l1 l2 num (num - 1) = (v * 360, s2, l2) := by
  unfold secFun
  have hd : ((num : ℚ) - 1) ≠ 0 := by
    have : (2 : ℚ) ≤ (num : ℚ) := by exact_mod_cast h
    linarith
  have hc : ((num - 1 : ℕ) : ℚ) = (num : ℚ) - 1 := by
    have : 1 ≤ num := by omega
    push_cast [this]
    ring
  rw [hc, div_mul_cancel₀ _ hd, div_mul_cancel₀ _ hd, div_mul_cancel₀ _ hd]
  have e1 : u + (v - u) = v := by ring
  have e2 : s1 + (s2 - s1) = s2 := by ring
  have e3 : l1 + (l2 - l1) = l2 := by ring
  rw [e1, e2, e3, qmod_eq_self (by norm_num) hv0 hv1]

/-- Each of the possible normalised endpoint hues of a section wraps back
to the original hue of the anchor. -/
lemma hue_endpoint_wrap {hdeg u : ℚ} (h0 : 0 ≤ hdeg) (h1 : hdeg < 360)
    (hu : u = hdeg / 360 ∨ u = hdeg / 360 + 1) : qmod (u * 360) 360 = hdeg := by
  rcases hu with rfl | rfl
  · rw [div_mul_cancel₀ _ (by norm_num : (360 : ℚ) ≠ 0)]
    exact qmod_eq_self (by norm_num) h0 h1
  · rw [add_mul, one_mul, div_mul_cancel₀ _ (by norm_num : (360 : ℚ) ≠ 0)]
    exact qmod_turn h0 h1

lemma sectionColors_head (c1 c2 : HSL) (longer : Bool) {num : ℕ} (h : 2 ≤ num)
    (hv : validHSL c1) :
    (sectionColors c1 c2 longer num).head? = some c1 := by
  obtain ⟨u, v, hu, _, heq⟩ := sectionColors_eq_map c1 c2 longer h
  obtain ⟨m, rfl⟩ : ∃ m, num = m + 1 := ⟨num - 1, by omega⟩
  rw [heq, List.range_succ_eq_map]
  simp only [List.map_cons, List.head?_cons]
  congr 1
  have hhue : qmod (u * 360) 360 = c1.1 := hue_endpoint_wrap hv.1 hv.2.1 hu
  have : secFun u v c1.2.1 c2.2.1 c1.2.2 c2.2.2 (m + 1) 0 =
      (qmod (u * 360) 360, c1.2.1, c1.2.2) := by
    unfold secFun
    push_cast
    rw [mul_zero, mul_zero, mul_zero, add_zero, add_zero, add_zero]
  rw [this, hhue]

lemma sectionColors_getLast (c1 c2 : HSL) (longer : Bool) {num : ℕ} (h : 2 ≤ num)
    (hv : validHSL c2) :
    (sectionColors c1 c2 longer num).getLast? = some c2 := by
  obtain ⟨u, v, _, hvv, heq⟩ := sectionColors_eq_map c1 c2 longer h
  obtain ⟨m, rfl⟩ : ∃ m, num = m + 1 := ⟨num - 1, by omega⟩
  rw [heq, List.range_succ, List.map_append, List.map_cons, List.map_nil,
    List.getLast?_concat]
  congr 1
  have hd : (((m + 1 : ℕ) : ℚ) - 1) ≠ 0 := by
    have : (2 : ℚ) ≤ ((m + 1 : ℕ) : ℚ) := by exact_mod_cast h
    linarith
  have hhue : qmod (v * 360) 360 = c2.1 := hue_endpoint_wrap hv.1 hv.2.1 hvv
  have hm : (m : ℚ) = ((m + 1 : ℕ) : ℚ) - 1 := by push_cast; ring
  unfold secFun
  rw [hm, div_mul_cancel₀ _ hd, div_mul_cancel₀ _ hd, div_mul_cancel₀ _ hd]
  have e1 : u + (v - u) = v := by ring
  have e2 : c1.2.1 + (c2.2.1 - c1.2.1) = c2.2.1 := by ring
  have e3 : c1.2.2 + (c2.2.2 - c1.2.2) = c2.2.2 := by ring
  rw [e1, e2, e3, hhue]

lemma sectionColors_valid (c1 c2 : HSL) (longer : Bool) {num : ℕ} (h : 2 ≤ num)
    (hv1 : validHSL c1) (hv2 : validHSL c2) :
    ∀ x ∈ sectionColors c1 c2 longer num, is_hslT x.1 x.2.1 x.2.2 = true := by
  obtain ⟨u, v, _, _, heq⟩ := sectionColors_eq_map c1 c2 longer h
  intro x hx
  rw [heq] at hx
  obtain ⟨i, hi, rfl⟩ := List.mem_map.mp hx
  rw [List.mem_range] at hi
  have hd : (0 : ℚ) < (num : ℚ) - 1 := by
    have : (2 : ℚ) ≤ (num : ℚ) := by exact_mod_cast h
    linarith
  have hi' : (i : ℚ) ≤ (num : ℚ) - 1 := by
    have : (i : ℚ) + 1 ≤ (num : ℚ) := by exact_mod_cast hi
    linarith
  have hi0 : (0 : ℚ) ≤ (i : ℚ) := Nat.cast_nonneg i
  have interp_mem : ∀ a b : ℚ, 0 ≤ a → a ≤ 1 → 0 ≤ b → b ≤ 1 →
      0 ≤ a + (b - a) / ((num : ℚ) - 1) * (i : ℚ) ∧
        a + (b - a) / ((num : ℚ) - 1) * (i : ℚ) ≤ 1 := by
    intro a b ha0 ha1 hb0 hb1
    have hrw : a + (b - a) / ((num : ℚ) - 1) * (i : ℚ) =
        (a * (((num : ℚ) - 1) - (i : ℚ)) + b * (i : ℚ)) / ((num : ℚ) - 1) := by
      field_simp
      ring
    rw [hrw]
    constructor
    · apply div_nonneg _ (le_of_lt hd)
      nlinarith
    · rw [div_le_one hd]
      nlinarith
  obtain ⟨hs0, hs1⟩ := interp_mem c1.2.1 c2.2.1 hv1.2.2.1 hv1.2.2.2.1 hv2.2.2.1 hv2.2.2.2.1
  obtain ⟨hl0, hl1⟩ := interp_mem c1.2.2 c2.2.2 hv1.2.2.2.2.1 hv1.2.2.2.2.2 hv2.2.2.2.2.1 hv2.2.2.2.2.2
  have hq0 := qmod_nonneg ((u + (v - u) / ((num : ℚ) - 1) * (i : ℚ)) * 360) 360 (by norm_num)
  have hq1 := qmod_lt ((u + (v - u) / ((num : ℚ) - 1) * (i : ℚ)) * 360) 360 (by norm_num)
  simp only [secFun, is_hslT, inRange, FLOAT_ERROR, Bool.and_eq_true, decide_eq_true_eq]
  refine ⟨⟨⟨by linarith, by linarith⟩, by linarith, by linarith⟩, by linarith, by linarith⟩

/-! ## List helpers for the interpolation loop -/

lemma adjPairs_cons (c c2 : HSL) (cs : List HSL) :
    adjPairs (c :: c2 :: cs) = (c, c2) :: adjPairs (c2 :: cs) := rfl

lemma adjPairs_single (c : HSL) : adjPairs [c] = [] := rfl

lemma drop_one_getLast {l : List HSL} (h : 2 ≤ l.length) :
    (l.drop 1).getLast? = l.getLast? := by
  match l, h with
  | a :: b :: t, _ => simp [List.getLast?_cons_cons]

lemma eq_concat_of_getLast {l : List HSL} {x : HSL} (h : l.getLast? = some x) :
    ∃ l', l = l' ++ [x] := by
  induction l with
  | nil => simp at h
  | cons a t ih =>
    cases t with
    | nil =>
      simp only [List.getLast?_singleton, Option.some.injEq] at h
      exact ⟨[], by rw [h]; rfl⟩
    | cons b t' =>
      rw [List.getLast?_cons_cons] at h
      obtain ⟨l', hl⟩ := ih h
      exact ⟨a :: l', by rw [List.cons_append, hl]⟩

lemma getLast?_append_right {l r : List HSL} (h : r ≠ []) :
    (l ++ r).getLast? = r.getLast? := by
  induction l with
  | nil => rfl
  | cons a l ih =>
    rcases hne : l ++ r with _ | ⟨y, ys⟩
    · exact absurd (List.append_eq_nil.mp hne).2 h
    · rw [List.cons_append, hne, List.getLast?_cons_cons, ← hne, ih]

lemma head?_append_left {l r : List HSL} (h : l ≠ []) :
    (l ++ r).head? = l.head? := by
  cases l with
  | nil => exact absurd rfl h
  | cons a t => rfl

lemma eq_cons_of_head {l : List HSL} {x : HSL} (h : l.head? = some x) :
    ∃ t, l = x :: t := by
  cases l with
  | nil => simp at h
  | cons a t =>
    simp only [List.head?_cons, Option.some.injEq] at h
    exact ⟨t, by rw [h]⟩

/-! ## The main loop: length, anchors, order and validity -/

lemma scaleGo_nil (longer : Bool) (q : ℕ) (frac : ℚ) (i added : ℕ) :
    scaleGo longer q frac [] i added = [] := rfl

lemma scaleGo_cons (longer : Bool) (q : ℕ) (frac : ℚ) (c1 c2 : HSL)
    (rest : List (HSL × HSL)) (i added : ℕ) :
    scaleGo longer q frac ((c1, c2) :: rest) i added =
      (if i = 0 then
        sectionColors c1 c2 longer
          (q + 2 + (if extraCond frac i added then 1 else 0))
      else
        (sectionColors c1 c2 longer
          (q + 2 + (if extraCond frac i added then 1 else 0))).drop 1) ++
        scaleGo longer q frac rest (i + 1)
          (added + if extraCond frac i added then 1 else 0) := rfl

lemma scaleGo_tail_spec (longer : Bool) (q : ℕ) (frac : ℚ) :
    ∀ (cs : List HSL) (c c2 : HSL) (i : ℕ), 1 ≤ i →
      validHSL c → validHSL c2 → (∀ x ∈ cs, validHSL x) →
      (scaleGo longer q frac (adjPairs (c :: c2 :: cs)) i (addedSeq frac i)).length
          = (cs.length + 1) * (q + 1) +
              (addedSeq frac (i + cs.length + 1) - addedSeq frac i) ∧
      (c2 :: cs).Sublist
          (scaleGo longer q frac (adjPairs (c :: c2 :: cs)) i (addedSeq frac i)) ∧
      (scaleGo longer q frac (adjPairs (c :: c2 :: cs)) i (addedSeq frac i)).getLast?
          = (c2 :: cs).getLast? ∧
      ∀ x ∈ scaleGo longer q frac (adjPairs (c :: c2 :: cs)) i (addedSeq frac i),
          is_hslT x.1 x.2.1 x.2.2 = true := by
  intro cs
  induction cs with
  | nil =>
    intro c c2 i hi hvc hvc2 _
    rw [adjPairs_cons, adjPairs_single, scaleGo_cons, scaleGo_nil, List.append_nil]
    rw [if_neg (by omega : ¬ i = 0)]
    have hnum : 2 ≤ q + 2 + (if extraCond frac i (addedSeq frac i) then 1 else 0) := by
      omega
    have hlen := sectionColors_length c c2 longer hnum
    have hlast := sectionColors_getLast c c2 longer hnum hvc2
    have hdl : ((sectionColors c c2 longer
        (q + 2 + (if extraCond frac i (addedSeq frac i) then 1 else 0))).drop 1).getLast?
        = some c2 := by
      rw [drop_one_getLast (by rw [hlen]; omega), hlast]
    have hA : addedSeq frac (i + 1) =
        addedSeq frac i + (if extraCond frac i (addedSeq frac i) then 1 else 0) := rfl
    refine ⟨?_, ?_, ?_, ?_⟩
    · rw [List.length_drop, hlen]
      simp only [List.length_nil, Nat.add_zero]
      omega
    · obtain ⟨l', hl'⟩ := eq_concat_of_getLast hdl
      rw [hl']
      exact List.sublist_append_right l' [c2]
    · rw [hdl]
      rfl
    · intro x hx
      exact sectionColors_valid c c2 longer hnum hvc hvc2 x (List.mem_of_mem_drop hx)
  | cons c3 cs' ih =>
    intro c c2 i hi hvc hvc2 hvcs
    have hvc3 : validHSL c3 := hvcs c3 (by simp)
    have hvcs' : ∀ x ∈ cs', validHSL x := fun x hx => hvcs x (by simp [hx])
    rw [adjPairs_cons, scaleGo_cons]
    rw [if_neg (by omega : ¬ i = 0)]
    have hA : addedSeq frac i + (if extraCond frac i (addedSeq frac i) then 1 else 0)
        = addedSeq frac (i + 1) := rfl
    rw [hA]
    obtain ⟨ihlen, ihsub, ihlast, ihval⟩ := ih c2 c3 (i + 1) (by omega) hvc2 hvc3 hvcs'
    have hnum : 2 ≤ q + 2 + (if extraCond frac i (addedSeq frac i) then 1 else 0) := by
      omega
    have hlen := sectionColors_length c c2 longer hnum
    have hlast := sectionColors_getLast c c2 longer hnum hvc2
    have hdl : ((sectionColors c c2 longer
        (q + 2 + (if extraCond frac i (addedSeq frac i) then 1 else 0))).drop 1).getLast?
        = some c2 := by
      rw [drop_one_getLast (by rw [hlen]; omega), hlast]
    have hlenpos : 0 < (scaleGo longer q frac (adjPairs (c2 :: c3 :: cs'))
        (i + 1) (addedSeq frac (i + 1))).length := by
      rw [ihlen]
      have : 1 ≤ (cs'.length + 1) * (q + 1) := Nat.one_le_iff_ne_zero.mpr (by positivity)
      omega
    have hne : scaleGo longer q frac (adjPairs (c2 :: c3 :: cs'))
        (i + 1) (addedSeq frac (i + 1)) ≠ [] := List.length_pos.mp hlenpos
    refine ⟨?_, ?_, ?_, ?_⟩
    · rw [List.length_append, List.length_drop, hlen, ihlen]
      simp only [List.length_cons]
      rw [show i + (cs'.length + 1) + 1 = i + 1 + cs'.length + 1 from by omega]
      have hAi2 : addedSeq frac (i + 1) ≤ addedSeq frac (i + 1 + cs'.length + 1) :=
        addedSeq_mono frac (by omega)
      have hstep : addedSeq frac (i + 1) =
          addedSeq frac i + (if extraCond frac i (addedSeq frac i) then 1 else 0) := rfl
      have e1 : (cs'.length + 1) * (q + 1) = cs'.length * q + cs'.length + q + 1 := by
        ring
      have e2 : (cs'.length + 1 + 1) * (q + 1)
          = cs'.length * q + cs'.length + 2 * q + 2 := by
        ring
      omega
    · obtain ⟨l', hl'⟩ := eq_concat_of_getLast hdl
      rw [hl']
      have hs1 : List.Sublist ([c2] ++ (c3 :: cs'))
          ((l' ++ [c2]) ++ scaleGo longer q frac (adjPairs (c2 :: c3 :: cs'))
            (i + 1) (addedSeq frac (i + 1))) :=
        List.Sublist.append (List.sublist_append_right l' [c2]) ihsub
      exact hs1
    · rw [getLast?_append_right hne, ihlast, List.getLast?_cons_cons]
    · intro x hx
      rcases List.mem_append.mp hx with hx1 | hx2
      · exact sectionColors_valid c c2 longer hnum hvc hvc2 x (List.mem_of_mem_drop hx1)
      · exact ihval x hx2

lemma qmod_natCast_div (m k : ℕ) (hk : 0 < k) :
    qmod ((m : ℚ) / (k : ℚ)) 1 = ((m % k : ℕ) : ℚ) / (k : ℚ) := by
  have hkQ : (0 : ℚ) < (k : ℚ) := by exact_mod_cast hk
  have hsplit : (m : ℚ) / (k : ℚ) = ((m / k : ℕ) : ℚ) + ((m % k : ℕ) : ℚ) / (k : ℚ) := by
    have hm : (m : ℚ) = (k : ℚ) * ((m / k : ℕ) : ℚ) + ((m % k : ℕ) : ℚ) := by
      exact_mod_cast (Nat.div_add_mod m k).symm
    rw [hm]
    field_simp
    ring
  rw [qmod, div_one, hsplit]
  have h0 : (0 : ℚ) ≤ ((m % k : ℕ) : ℚ) / (k : ℚ) :=
    div_nonneg (Nat.cast_nonneg _) (le_of_lt hkQ)
  have h1 : ((m % k : ℕ) : ℚ) / (k : ℚ) < 1 := by
    rw [div_lt_one hkQ]
    exact_mod_cast Nat.mod_lt m hk
  have hfr : ⌊((m / k : ℕ) : ℚ) + ((m % k : ℕ) : ℚ) / (k : ℚ)⌋ = ((m / k : ℕ) : ℤ) := by
    rw [add_comm, Int.floor_add_nat, Int.floor_eq_zero_iff.mpr (Set.mem_Ico.mpr ⟨h0, h1⟩)]
    ring
  rw [hfr]
  have hc : (((m / k : ℕ) : ℤ) : ℚ) = ((m / k : ℕ) : ℚ) := by exact_mod_cast rfl
  rw [hc]
  ring

lemma addedSeq_total (r k : ℕ) (hrk : r < k) :
    addedSeq ((r : ℚ) / (k : ℚ)) k = r := by
  have hk : 0 < k := lt_of_le_of_lt (Nat.zero_le r) hrk
  have hkQ : (0 : ℚ) < (k : ℚ) := by exact_mod_cast hk
  have h0 : 0 ≤ (r : ℚ) / (k : ℚ) := div_nonneg (Nat.cast_nonneg _) (le_of_lt hkQ)
  have h1 : (r : ℚ) / (k : ℚ) < 1 := by
    rw [div_lt_one hkQ]
    exact_mod_cast hrk
  have h := addedSeq_cast_eq _ h0 h1 k
  rw [div_mul_cancel₀ _ (ne_of_gt hkQ)] at h
  have hr : ⌊(r : ℚ) + 1 / 20000000⌋ = (r : ℤ) := by
    rw [add_comm, Int.floor_add_nat,
      Int.floor_eq_zero_iff.mpr (Set.mem_Ico.mpr ⟨by norm_num, by norm_num⟩)]
    ring
  rw [hr] at h
  exact_mod_cast h

lemma scaleGo_full_spec (longer : Bool) (q r : ℕ) (c0 c1 : HSL) (rest : List HSL)
    (hrk : r < rest.length + 1)
    (hv : ∀ x ∈ c0 :: c1 :: rest, validHSL x) :
    (scaleGo longer q ((r : ℚ) / ((rest.length + 1 : ℕ) : ℚ))
        (adjPairs (c0 :: c1 :: rest)) 0 0).length
        = (rest.length + 1) * (q + 1) + 1 + r ∧
    (c0 :: c1 :: rest).Sublist
        (scaleGo longer q ((r : ℚ) / ((rest.length + 1 : ℕ) : ℚ))
          (adjPairs (c0 :: c1 :: rest)) 0 0) ∧
    (scaleGo longer q ((r : ℚ) / ((rest.length + 1 : ℕ) : ℚ))
        (adjPairs (c0 :: c1 :: rest)) 0 0).head? = some c0 ∧
    (scaleGo longer q ((r : ℚ) / ((rest.length + 1 : ℕ) : ℚ))
        (adjPairs (c0 :: c1 :: rest)) 0 0).getLast? = (c0 :: c1 :: rest).getLast? ∧
    ∀ x ∈ scaleGo longer q ((r : ℚ) / ((rest.length + 1 : ℕ) : ℚ))
        (adjPairs (c0 :: c1 :: rest)) 0 0,
      is_hslT x.1 x.2.1 x.2.2 = true := by
  have hvc0 : validHSL c0 := hv c0 (by simp)
  have hvc1 : validHSL c1 := hv c1 (by simp)
  cases rest with
  | nil =>
    have hr0 : r = 0 := by simpa using hrk
    subst hr0
    have hfrac : ((0 : ℕ) : ℚ) / (((List.length ([] : List HSL)) + 1 : ℕ) : ℚ) = 0 := by
      norm_num
    rw [hfrac, adjPairs_cons, scaleGo_cons, adjPairs_single, scaleGo_nil,
      List.append_nil, if_pos rfl]
    have hex : ¬ extraCond 0 0 0 = true := by
      rw [extraCond_iff]
      norm_num
    rw [if_neg hex]
    have hnum : 2 ≤ q + 2 + 0 := by omega
    have hlen := sectionColors_length c0 c1 longer hnum
    have hhead := sectionColors_head c0 c1 longer hnum hvc0
    have hlast := sectionColors_getLast c0 c1 longer hnum hvc1
    refine ⟨by rw [hlen]; simp only [List.length_nil]; omega, ?_, hhead, by rw [hlast]; rfl,
      sectionColors_valid c0 c1 longer hnum hvc0 hvc1⟩
    obtain ⟨t, ht⟩ := eq_cons_of_head hhead
    have htl : t.getLast? = some c1 := by
      have h2t : 1 ≤ t.length := by
        have := hlen
        rw [ht] at this
        simp at this
        omega
      rcases t with _ | ⟨y, ys⟩
      · simp at h2t
      · rw [ht, List.getLast?_cons_cons] at hlast
        exact hlast
    obtain ⟨l', hl'⟩ := eq_concat_of_getLast htl
    rw [ht, hl']
    exact List.Sublist.cons₂ c0 (List.sublist_append_right l' [c1])
  | cons c2 rest' =>
    have hvc2 : validHSL c2 := hv c2 (by simp)
    have hvrest : ∀ x ∈ rest', validHSL x := fun x hx => hv x (by simp [hx])
    have hkQ : (0 : ℚ) < (((c2 :: rest').length + 1 : ℕ) : ℚ) := by
      positivity
    have h0f : 0 ≤ (r : ℚ) / (((c2 :: rest').length + 1 : ℕ) : ℚ) :=
      div_nonneg (Nat.cast_nonneg _) (le_of_lt hkQ)
    have h1f : (r : ℚ) / (((c2 :: rest').length + 1 : ℕ) : ℚ) < 1 := by
      rw [div_lt_one hkQ]
      exact_mod_cast hrk
    rw [adjPairs_cons, scaleGo_cons, if_pos rfl]
    rw [show (0 + if extraCond ((r : ℚ) / (((c2 :: rest').length + 1 : ℕ) : ℚ)) 0 0
          then 1 else 0)
        = addedSeq ((r : ℚ) / (((c2 :: rest').length + 1 : ℕ) : ℚ)) 1 from by
      simp [addedSeq]]
    rw [show (0 + 1) = 1 from rfl]
    obtain ⟨slen, ssub, slast, sval⟩ :=
      scaleGo_tail_spec longer q ((r : ℚ) / (((c2 :: rest').length + 1 : ℕ) : ℚ))
        rest' c1 c2 1 (le_refl 1) hvc1 hvc2 hvrest
    have he0 : addedSeq ((r : ℚ) / (((c2 :: rest').length + 1 : ℕ) : ℚ)) 1
        = (if extraCond ((r : ℚ) / (((c2 :: rest').length + 1 : ℕ) : ℚ)) 0 0
            then 1 else 0) := by
      simp [addedSeq]
    have hAk : addedSeq ((r : ℚ) / (((c2 :: rest').length + 1 : ℕ) : ℚ))
        ((c2 :: rest').length + 1) = r := addedSeq_total r _ hrk
    have hidx : 1 + rest'.length + 1 = (c2 :: rest').length + 1 := by
      simp
      omega
    rw [hidx] at slen
    have hnum : 2 ≤ q + 2 +
        (if extraCond ((r : ℚ) / (((c2 :: rest').length + 1 : ℕ) : ℚ)) 0 0
          then 1 else 0) := by omega
    have hlen := sectionColors_length c0 c1 longer hnum
    have hhead := sectionColors_head c0 c1 longer hnum hvc0
    have hlast := sectionColors_getLast c0 c1 longer hnum hvc1
    have houtpos : 0 < (scaleGo longer q
        ((r : ℚ) / (((c2 :: rest').length + 1 : ℕ) : ℚ))
        (adjPairs (c1 :: c2 :: rest')) 1
        (addedSeq ((r : ℚ) / (((c2 :: rest').length + 1 : ℕ) : ℚ)) 1)).length := by
      rw [slen]
      have : 1 ≤ (rest'.length + 1) * (q + 1) := Nat.one_le_iff_ne_zero.mpr (by positivity)
      omega
    have houtne : scaleGo longer q
        ((r : ℚ) / (((c2 :: rest').length + 1 : ℕ) : ℚ))
        (adjPairs (c1 :: c2 :: rest')) 1
        (addedSeq ((r : ℚ) / (((c2 :: rest').length + 1 : ℕ) : ℚ)) 1) ≠ [] :=
      List.length_pos.mp houtpos
    obtain ⟨t, ht⟩ := eq_cons_of_head hhead
    have haddne : sectionColors c0 c1 longer (q + 2 +
        (if extraCond ((r : ℚ) / (((c2 :: rest').length + 1 : ℕ) : ℚ)) 0 0
          then 1 else 0)) ≠ [] := by
      rw [ht]
      exact List.cons_ne_nil c0 t
    refine ⟨?_, ?_, ?_, ?_, ?_⟩
    · rw [List.length_append, hlen, slen]
      have hA1le : addedSeq ((r : ℚ) / (((c2 :: rest').length + 1 : ℕ) : ℚ)) 1
          ≤ addedSeq ((r : ℚ) / (((c2 :: rest').length + 1 : ℕ) : ℚ))
              ((c2 :: rest').length + 1) :=
        addedSeq_mono _ (by simp)
      have elen : (c2 :: rest').length = rest'.length + 1 := rfl
      have e1 : (rest'.length + 1) * (q + 1) = rest'.length * q + rest'.length + q + 1 := by
        ring
      have e2 : ((c2 :: rest').length + 1) * (q + 1)
          = rest'.length * q + rest'.length + 2 * q + 2 := by
        rw [elen]
        ring
      omega
    · have htl : t.getLast? = some c1 := by
        have h2t : 1 ≤ t.length := by
          have hh := hlen
          rw [ht] at hh
          simp only [List.length_cons] at hh
          omega
        rcases t with _ | ⟨y, ys⟩
        · simp at h2t
        · rw [ht, List.getLast?_cons_cons] at hlast
          exact hlast
      obtain ⟨l', hl'⟩ := eq_concat_of_getLast htl
      rw [ht, hl', List.cons_append]
      exact List.Sublist.cons₂ c0
        (List.Sublist.append (List.sublist_append_right l' [c1]) ssub)
    · rw [head?_append_left haddne, hhead]
    · rw [getLast?_append_right houtne, slast, List.getLast?_cons_cons,
        List.getLast?_cons_cons]
    · intro x hx
      rcases List.mem_append.mp hx with hx1 | hx2
      · exact sectionColors_valid c0 c1 longer hnum hvc0 hvc1 x hx1
      · exact sval x hx2

lemma color_scale_ok (colors : List HSL) (n : ℕ) (longer : Bool)
    (h2 : 2 ≤ colors.length) (hn : colors.length ≤ n)
    (hv : ∀ x ∈ colors, validHSL x) :
    color_scale colors n longer = .ok (scaleList colors n longer) ∧
    (scaleList colors n longer).length = n ∧
    colors.Sublist (scaleList colors n longer) ∧
    (scaleList colors n longer).head? = colors.head? ∧
    (scaleList colors n longer).getLast? = colors.getLast? := by
  rcases colors with _ | ⟨c0, colors'⟩
  · simp at h2
  rcases colors' with _ | ⟨c1, rest⟩
  · simp at h2
  have hn' : rest.length + 2 ≤ n := by simpa using hn
  have hscale : scaleList (c0 :: c1 :: rest) n longer
      = scaleGo longer ((n - (rest.length + 2)) / (rest.length + 1))
          ((((n - (rest.length + 2)) % (rest.length + 1) : ℕ) : ℚ)
            / ((rest.length + 1 : ℕ) : ℚ))
          (adjPairs (c0 :: c1 :: rest)) 0 0 := by
    simp only [scaleList, List.length_cons]
    rw [show rest.length + 1 + 1 - 1 = rest.length + 1 from rfl]
    have hc2 : ((n : ℚ) - ((rest.length + 1 + 1 : ℕ) : ℚ))
        = (((n - (rest.length + 2)) : ℕ) : ℚ) := by
      rw [Nat.cast_sub hn']
    rw [hc2, qmod_natCast_div _ _ (by omega : 0 < rest.length + 1)]
  obtain ⟨glen, gsub, ghead, glast, gval⟩ :=
    scaleGo_full_spec longer ((n - (rest.length + 2)) / (rest.length + 1))
      ((n - (rest.length + 2)) % (rest.length + 1)) c0 c1 rest
      (Nat.mod_lt _ (by omega)) hv
  have hlen : (scaleList (c0 :: c1 :: rest) n longer).length = n := by
    rw [hscale, glen]
    have hdm := Nat.div_add_mod (n - (rest.length + 2)) (rest.length + 1)
    have e : (rest.length + 1) * ((n - (rest.length + 2)) / (rest.length + 1) + 1)
        = (rest.length + 1) * ((n - (rest.length + 2)) / (rest.length + 1))
          + (rest.length + 1) := by
      ring
    omega
  have hall : ((scaleList (c0 :: c1 :: rest) n longer).all
      fun c => is_hslT c.1 c.2.1 c.2.2) = true := by
    rw [List.all_eq_true, hscale]
    exact gval
  refine ⟨?_, hlen, by rw [hscale]; exact gsub, by rw [hscale, ghead]; rfl, by rw [hscale]; exact glast⟩
  simp only [color_scale]
  rw [if_neg (by simp only [List.length_cons]; omega),
    if_neg (by simp only [List.length_cons]; omega), if_pos hall]

/-! ## Evaluation of the hue helper on each sector -/

lemma hue2rgb_up {v1 v2 w : ℚ} (h0 : 0 ≤ w) (h1 : w ≤ 1 / 6) :
    hue2rgb v1 v2 w = v1 + (v2 - v1) * 6 * w := by
  have hfl : ⌊w⌋ = 0 :=
    Int.floor_eq_zero_iff.mpr (Set.mem_Ico.mpr ⟨h0, by linarith⟩)
  unfold hue2rgb
  rw [hfl, Int.cast_zero, sub_zero]
  by_cases h6 : 6 * w < 1
  · rw [if_pos h6]
  · have hw : w = 1 / 6 := by linarith
    rw [if_neg h6, if_pos (by rw [hw]; norm_num : 2 * w < 1), hw]
    ring

lemma hue2rgb_eq_v2 {v1 v2 w : ℚ} (h1 : 1 / 6 ≤ w) (h2 : w ≤ 1 / 2) :
    hue2rgb v1 v2 w = v2 := by
  have hfl : ⌊w⌋ = 0 :=
    Int.floor_eq_zero_iff.mpr (Set.mem_Ico.mpr ⟨by linarith, by linarith⟩)
  unfold hue2rgb
  rw [hfl, Int.cast_zero, sub_zero]
  rw [if_neg (by linarith : ¬ 6 * w < 1)]
  by_cases h2w : 2 * w < 1
  · rw [if_pos h2w]
  · have hw : w = 1 / 2 := by linarith
    rw [if_neg h2w, if_pos (by rw [hw]; norm_num : 3 * w < 2), hw]
    ring

lemma hue2rgb_down {v1 v2 w : ℚ} (h1 : 1 / 2 ≤ w) (h2 : w ≤ 2 / 3) :
    hue2rgb v1 v2 w = v1 + (v2 - v1) * (2 / 3 - w) * 6 := by
  have hfl : ⌊w⌋ = 0 :=
    Int.floor_eq_zero_iff.mpr (Set.mem_Ico.mpr ⟨by linarith, by linarith⟩)
  unfold hue2rgb
  rw [hfl, Int.cast_zero, sub_zero]
  rw [if_neg (by linarith : ¬ 6 * w < 1), if_neg (by linarith : ¬ 2 * w < 1)]
  by_cases h3 : 3 * w < 2
  · rw [if_pos h3]
  · have hw : w = 2 / 3 := by linarith
    rw [if_neg h3, hw]
    ring

lemma hue2rgb_eq_v1 {v1 v2 w : ℚ} (h1 : 2 / 3 ≤ w) (h2 : w ≤ 1) :
    hue2rgb v1 v2 w = v1 := by
  by_cases hw1 : w < 1
  · have hfl : ⌊w⌋ = 0 :=
      Int.floor_eq_zero_iff.mpr (Set.mem_Ico.mpr ⟨by linarith, hw1⟩)
    unfold hue2rgb
    rw [hfl, Int.cast_zero, sub_zero]
    rw [if_neg (by linarith : ¬ 6 * w < 1), if_neg (by linarith : ¬ 2 * w < 1),
      if_neg (by linarith : ¬ 3 * w < 2)]
  · have hw : w = 1 := le_antisymm h2 (not_lt.mp hw1)
    subst hw
    unfold hue2rgb
    norm_num

lemma hue2rgb_sub_one (v1 v2 w : ℚ) :
    hue2rgb v1 v2 (w - 1) = hue2rgb v1 v2 w := by
  unfold hue2rgb
  have hfl : ⌊w - 1⌋ = ⌊w⌋ - 1 := by
    rw [show w - 1 = w + (-1 : ℤ) from by push_cast; ring, Int.floor_add_int]
    omega
  have harg : w - 1 - ((⌊w⌋ - 1 : ℤ) : ℚ) = w - (⌊w⌋ : ℚ) := by
    push_cast
    ring
  rw [hfl, harg]

/-! ## The rgb→hsl→rgb round-trip is exact over the rationals -/

set_option maxHeartbeats 1000000 in
lemma roundtrip_core (r g b : ℚ) (hr0 : 0 ≤ r) (hr1 : r ≤ 255) (hg0 : 0 ≤ g)
    (hg1 : g ≤ 255) (hb0 : 0 ≤ b) (hb1 : b ≤ 255) :
    hsl2rgbCore (rgb2hslCore r g b).1 (rgb2hslCore r g b).2.1
      (rgb2hslCore r g b).2.2 = (r, g, b) := by
  simp only [rgb2hslCore]
  set x := r / 255 with hxdef
  set y := g / 255 with hydef
  set z := b / 255 with hzdef
  have hx0 : 0 ≤ x := by rw [hxdef]; positivity
  have hy0 : 0 ≤ y := by rw [hydef]; positivity
  have hz0 : 0 ≤ z := by rw [hzdef]; positivity
  have hx1 : x ≤ 1 := by
    rw [hxdef, div_le_one (by norm_num : (0:ℚ) < 255)]; exact hr1
  have hy1 : y ≤ 1 := by
    rw [hydef, div_le_one (by norm_num : (0:ℚ) < 255)]; exact hg1
  have hz1 : z ≤ 1 := by
    rw [hzdef, div_le_one (by norm_num : (0:ℚ) < 255)]; exact hb1
  have hr255 : 255 * x = r := by rw [hxdef]; ring
  have hg255 : 255 * y = g := by rw [hydef]; ring
  have hb255 : 255 * z = b := by rw [hzdef]; ring
  set mx := max x (max y z) with hmxdef
  set mn := min x (min y z) with hmndef
  have hxmx : x ≤ mx := le_max_left _ _
  have hymx : y ≤ mx := le_trans (le_max_left _ _) (le_max_right _ _)
  have hzmx : z ≤ mx := le_trans (le_max_right _ _) (le_max_right _ _)
  have hmnx : mn ≤ x := min_le_left _ _
  have hmny : mn ≤ y := le_trans (min_le_right _ _) (min_le_left _ _)
  have hmnz : mn ≤ z := le_trans (min_le_right _ _) (min_le_right _ _)
  have hmn0 : 0 ≤ mn := le_min hx0 (le_min hy0 hz0)
  have hmx1 : mx ≤ 1 := max_le hx1 (max_le hy1 hz1)
  have hmnmx : mn ≤ mx := le_trans hmnx hxmx
  by_cases heq : mx = mn
  · have hxeq : x = mx := le_antisymm hxmx (by rw [heq]; exact hmnx)
    have hyeq : y = mx := le_antisymm hymx (by rw [heq]; exact hmny)
    have hzeq : z = mx := le_antisymm hzmx (by rw [heq]; exact hmnz)
    rw [if_pos heq, if_pos heq]
    simp only [hsl2rgbCore]
    rw [if_pos trivial]
    have hL : (mx + mn) / 2 = mx := by rw [heq]; ring
    simp only [Prod.mk.injEq]
    refine ⟨?_, ?_, ?_⟩
    · rw [hL, ← hxeq]; exact hr255
    · rw [hL, ← hyeq]; exact hg255
    · rw [hL, ← hzeq]; exact hb255
  · rw [if_neg heq, if_neg heq]
    have hlt : mn < mx := lt_of_le_of_ne hmnmx fun h => heq h.symm
    have hd : 0 < mx - mn := sub_pos.mpr hlt
    have hmx0 : 0 < mx := lt_of_le_of_lt hmn0 hlt
    have hL0 : 0 < (mx + mn) / 2 := by linarith
    have hL1 : (mx + mn) / 2 < 1 := by linarith
    simp only [hsl2rgbCore]
    have hSpos : 0 < (if (mx + mn) / 2 ≤ 1 / 2 then (mx - mn) / (2 * ((mx + mn) / 2))
        else (mx - mn) / (2 - 2 * ((mx + mn) / 2))) := by
      split_ifs with hh
      · exact div_pos hd (by linarith)
      · exact div_pos hd (by linarith)
    rw [if_neg hSpos.ne']
    have hv2 : (if (mx + mn) / 2 < 1 / 2 then
        ((mx + mn) / 2) * (1 + (if (mx + mn) / 2 ≤ 1 / 2 then
          (mx - mn) / (2 * ((mx + mn) / 2)) else (mx - mn) / (2 - 2 * ((mx + mn) / 2))))
        else (mx + mn) / 2 + (if (mx + mn) / 2 ≤ 1 / 2 then
          (mx - mn) / (2 * ((mx + mn) / 2)) else (mx - mn) / (2 - 2 * ((mx + mn) / 2)))
          - (if (mx + mn) / 2 ≤ 1 / 2 then (mx - mn) / (2 * ((mx + mn) / 2))
            else (mx - mn) / (2 - 2 * ((mx + mn) / 2))) * ((mx + mn) / 2)) = mx := by
      by_cases hhalf : (mx + mn) / 2 < 1 / 2
      · rw [if_pos hhalf, if_pos (le_of_lt hhalf)]
        field_simp [hL0.ne']
        ring
      · by_cases hhalf2 : (mx + mn) / 2 ≤ 1 / 2
        · have hLhalf : (mx + mn) / 2 = 1 / 2 := le_antisymm hhalf2 (not_lt.mp hhalf)
          have hsum : mx + mn = 1 := by linarith
          rw [if_neg hhalf, if_pos hhalf2, hLhalf]
          norm_num
          linarith
        · rw [if_neg hhalf, if_neg hhalf2]
          rw [show (2 : ℚ) - 2 * ((mx + mn) / 2) = 2 - mx - mn from by ring]
          have hne : (2 : ℚ) - mx - mn ≠ 0 := (by linarith : (0 : ℚ) < 2 - mx - mn).ne'
          field_simp [hne]
          ring
    rw [hv2, show 2 * ((mx + mn) / 2) - mx = mn from by ring]
    simp only [Prod.mk.injEq]
    by_cases hmx : mx = x
    · rw [if_pos hmx]
      set u := (y - z) / (mx - mn) with hudef
      by_cases hyz : z ≤ y
      · have hmneq : mn = z := by
          rw [hmndef, min_eq_right hyz, min_eq_right (show z ≤ x by rw [← hmx]; exact hzmx)]
        have hu0 : 0 ≤ u := by
          rw [hudef]
          exact div_nonneg (by linarith) (le_of_lt hd)
        have hu1 : u ≤ 1 := by
          rw [hudef, div_le_one hd]
          linarith
        have hH : qmod (60 * u + 360) 360 = 60 * u := by
          rw [qmod_add_cancel (by norm_num)]
          exact qmod_eq_self (by norm_num) (by linarith) (by linarith)
        rw [hH]
        have hdu : (mx - mn) * u = y - z := by
          rw [hudef]
          field_simp
        refine ⟨?_, ?_, ?_⟩
        · rw [show 60 * u / 360 + 1 / 3 = u / 6 + 1 / 3 from by ring,
            hue2rgb_eq_v2 (by linarith) (by linarith), hmx]
          exact hr255
        · rw [show 60 * u / 360 = u / 6 from by ring,
            hue2rgb_up (by linarith) (by linarith)]
          rw [show mn + (mx - mn) * 6 * (u / 6) = mn + (mx - mn) * u from by ring,
            hdu, hmneq, show z + (y - z) = y from by ring]
          exact hg255
        · rw [show 60 * u / 360 - 1 / 3 = (u / 6 + 2 / 3) - 1 from by ring,
            hue2rgb_sub_one,
            hue2rgb_eq_v1 (by linarith) (by linarith), hmneq]
          exact hb255
      · push_neg at hyz
        have hmneq : mn = y := by
          rw [hmndef, min_eq_left (le_of_lt hyz), min_eq_right (show y ≤ x by rw [← hmx]; exact hymx)]
        have hu0 : u < 0 := by
          rw [hudef]
          exact div_neg_of_neg_of_pos (by linarith) hd
        have hu1 : -1 ≤ u := by
          rw [hudef, le_div_iff hd]
          linarith
        have hH : qmod (60 * u + 360) 360 = 60 * u + 360 :=
          qmod_eq_self (by norm_num) (by linarith) (by linarith)
        rw [hH]
        have hdu : (mx - mn) * u = y - z := by
          rw [hudef]
          field_simp
        refine ⟨?_, ?_, ?_⟩
        · rw [show (60 * u + 360) / 360 + 1 / 3 = (u / 6 + 1 / 3) + 1 - 0 from by ring]
          rw [show (u / 6 + 1 / 3) + 1 - 0 = (u / 6 + 1 / 3 + 1) - 0 from by ring]
          rw [sub_zero, show u / 6 + 1 / 3 + 1 = (u / 6 + 1 / 3) + 1 from rfl]
          rw [show (u / 6 + 1 / 3) + 1 = (u / 6 + 1 / 3 + 1) from rfl]
          rw [show hue2rgb mn mx (u / 6 + 1 / 3 + 1)
              = hue2rgb mn mx ((u / 6 + 1 / 3 + 1) - 1) from (hue2rgb_sub_one mn mx _).symm]
          rw [show (u / 6 + 1 / 3 + 1) - 1 = u / 6 + 1 / 3 from by ring,
            hue2rgb_eq_v2 (by linarith) (by linarith), hmx]
          exact hr255
        · rw [show (60 * u + 360) / 360 = u / 6 + 1 from by ring,
            hue2rgb_eq_v1 (by linarith) (by linarith), hmneq]
          exact hg255
        · rw [show (60 * u + 360) / 360 - 1 / 3 = u / 6 + 2 / 3 from by ring,
            hue2rgb_down (by linarith) (by linarith)]
          rw [show mn + (mx - mn) * (2 / 3 - (u / 6 + 2 / 3)) * 6
              = mn - (mx - mn) * u from by ring, hdu, hmneq,
            show y - (y - z) = z from by ring]
          exact hb255
    · by_cases hmy : mx = y
      · rw [if_neg hmx, if_pos hmy]
        set u := (z - x) / (mx - mn) with hudef
        have hu1 : u ≤ 1 := by
          rw [hudef, div_le_one hd]
          linarith
        have hum1 : -1 ≤ u := by
          rw [hudef, le_div_iff hd]
          linarith
        have hH : qmod (60 * u + 120) 360 = 60 * u + 120 :=
          qmod_eq_self (by norm_num) (by linarith) (by linarith)
        rw [hH]
        have hdu : (mx - mn) * u = z - x := by
          rw [hudef]
          field_simp
        refine ⟨?_, ?_, ?_⟩
        · by_cases hzx : z ≤ x
          · have hmneq : mn = z := by
              rw [hmndef, min_eq_right (show z ≤ y by rw [← hmy]; exact hzmx), min_eq_right hzx]
            have hu0 : u ≤ 0 := by
              rw [hudef]
              exact div_nonpos_of_nonpos_of_nonneg (by linarith) (le_of_lt hd)
            rw [show (60 * u + 120) / 360 + 1 / 3 = u / 6 + 2 / 3 from by ring,
              hue2rgb_down (by linarith) (by linarith)]
            rw [show mn + (mx - mn) * (2 / 3 - (u / 6 + 2 / 3)) * 6
                = mn - (mx - mn) * u from by ring, hdu, hmneq,
              show z - (z - x) = x from by ring]
            exact hr255
          · push_neg at hzx
            have hmneq : mn = x := by
              rw [hmndef, min_eq_right (show z ≤ y by rw [← hmy]; exact hzmx), min_eq_left (le_of_lt hzx)]
            have hu0 : 0 < u := div_pos (by linarith) hd
            rw [show (60 * u + 120) / 360 + 1 / 3 = u / 6 + 2 / 3 from by ring,
              hue2rgb_eq_v1 (by linarith) (by linarith), hmneq]
            exact hr255
        · rw [show (60 * u + 120) / 360 = u / 6 + 1 / 3 from by ring,
            hue2rgb_eq_v2 (by linarith) (by linarith), hmy]
          exact hg255
        · by_cases hzx : z ≤ x
          · have hmneq : mn = z := by
              rw [hmndef, min_eq_right (show z ≤ y by rw [← hmy]; exact hzmx), min_eq_right hzx]
            have hu0 : u ≤ 0 := by
              rw [hudef]
              exact div_nonpos_of_nonpos_of_nonneg (by linarith) (le_of_lt hd)
            rw [show (60 * u + 120) / 360 - 1 / 3 = (u / 6 + 1) - 1 from by ring,
              hue2rgb_sub_one,
              hue2rgb_eq_v1 (by linarith) (by linarith), hmneq]
            exact hb255
          · push_neg at hzx
            have hmneq : mn = x := by
              rw [hmndef, min_eq_right (show z ≤ y by rw [← hmy]; exact hzmx), min_eq_left (le_of_lt hzx)]
            have hu0 : 0 < u := div_pos (by linarith) hd
            rw [show (60 * u + 120) / 360 - 1 / 3 = u / 6 from by ring,
              hue2rgb_up (by linarith) (by linarith)]
            rw [show mn + (mx - mn) * 6 * (u / 6) = mn + (mx - mn) * u from by ring,
              hdu, hmneq, show x + (z - x) = z from by ring]
            exact hb255
      · have hmz : mx = z := by
          rcases max_choice x (max y z) with h | h
          · exact absurd h hmx
          · rcases max_choice y z with h2 | h2
            · rw [hmxdef] at hmy
              exact absurd (h.trans h2) hmy
            · exact h.trans h2
        rw [if_neg hmx, if_neg hmy]
        set u := (x - y) / (mx - mn) with hudef
        have hu1 : u ≤ 1 := by
          rw [hudef, div_le_one hd]
          linarith
        have hum1 : -1 ≤ u := by
          rw [hudef, le_div_iff hd]
          linarith
        have hH : qmod (60 * u + 240) 360 = 60 * u + 240 :=
          qmod_eq_self (by norm_num) (by linarith) (by linarith)
        rw [hH]
        have hdu : (mx - mn) * u = x - y := by
          rw [hudef]
          field_simp
        refine ⟨?_, ?_, ?_⟩
        · by_cases hyx : y ≤ x
          · have hmneq : mn = y := by
              rw [hmndef, min_eq_left (show y ≤ z by rw [← hmz]; exact hymx), min_eq_right hyx]
            have hu0 : 0 ≤ u := div_nonneg (by linarith) (le_of_lt hd)
            rw [show (60 * u + 240) / 360 + 1 / 3 = (u / 6) + 1 from by ring]
            rw [show hue2rgb mn mx (u / 6 + 1)
                = hue2rgb mn mx ((u / 6 + 1) - 1) from (hue2rgb_sub_one mn mx _).symm]
            rw [show (u / 6 + 1) - 1 = u / 6 from by ring,
              hue2rgb_up (by linarith) (by linarith)]
            rw [show mn + (mx - mn) * 6 * (u / 6) = mn + (mx - mn) * u from by ring,
              hdu, hmneq, show y + (x - y) = x from by ring]
            exact hr255
          · push_neg at hyx
            have hmneq : mn = x := by
              rw [hmndef, min_eq_left (show y ≤ z by rw [← hmz]; exact hymx), min_eq_left (le_of_lt hyx)]
            have hu0 : u < 0 := div_neg_of_neg_of_pos (by linarith) hd
            rw [show (60 * u + 240) / 360 + 1 / 3 = u / 6 + 1 from by ring,
              hue2rgb_eq_v1 (by linarith) (by linarith), hmneq]
            exact hr255
        · by_cases hyx : y ≤ x
          · have hmneq : mn = y := by
              rw [hmndef, min_eq_left (show y ≤ z by rw [← hmz]; exact hymx), min_eq_right hyx]
            have hu0 : 0 ≤ u := div_nonneg (by linarith) (le_of_lt hd)
            rw [show (60 * u + 240) / 360 = u / 6 + 2 / 3 from by ring,
              hue2rgb_eq_v1 (by linarith) (by linarith), hmneq]
            exact hg255
          · push_neg at hyx
            have hmneq : mn = x := by
              rw [hmndef, min_eq_left (show y ≤ z by rw [← hmz]; exact hymx), min_eq_left (le_of_lt hyx)]
            have hu0 : u < 0 := div_neg_of_neg_of_pos (by linarith) hd
            rw [show (60 * u + 240) / 360 = u / 6 + 2 / 3 from by ring,
              hue2rgb_down (by linarith) (by linarith)]
            rw [show mn + (mx - mn) * (2 / 3 - (u / 6 + 2 / 3)) * 6
                = mn - (mx - mn) * u from by ring, hdu, hmneq,
              show x - (x - y) = y from by ring]
            exact hg255
        · rw [show (60 * u + 240) / 360 - 1 / 3 = u / 6 + 1 / 3 from by ring,
            hue2rgb_eq_v2 (by linarith) (by linarith), hmz]
          exact hb255

lemma rgb2hslCore_valid (r g b : ℚ) (hr0 : 0 ≤ r) (hr1 : r ≤ 255) (hg0 : 0 ≤ g)
    (hg1 : g ≤ 255) (hb0 : 0 ≤ b) (hb1 : b ≤ 255) :
    is_hslT (rgb2hslCore r g b).1 (rgb2hslCore r g b).2.1
      (rgb2hslCore r g b).2.2 = true := by
  simp only [rgb2hslCore]
  set x := r / 255 with hxdef
  set y := g / 255 with hydef
  set z := b / 255 with hzdef
  have hx0 : 0 ≤ x := by rw [hxdef]; positivity
  have hy0 : 0 ≤ y := by rw [hydef]; positivity
  have hz0 : 0 ≤ z := by rw [hzdef]; positivity
  have hx1 : x ≤ 1 := by
    rw [hxdef, div_le_one (by norm_num : (0:ℚ) < 255)]; exact hr1
  have hy1 : y ≤ 1 := by
    rw [hydef, div_le_one (by norm_num : (0:ℚ) < 255)]; exact hg1
  have hz1 : z ≤ 1 := by
    rw [hzdef, div_le_one (by norm_num : (0:ℚ) < 255)]; exact hb1
  set mx := max x (max y z) with hmxdef
  set mn := min x (min y z) with hmndef
  have hxmx : x ≤ mx := le_max_left _ _
  have hmnx : mn ≤ x := min_le_left _ _
  have hmn0 : 0 ≤ mn := le_min hx0 (le_min hy0 hz0)
  have hmx1 : mx ≤ 1 := max_le hx1 (max_le hy1 hz1)
  have hmnmx : mn ≤ mx := le_trans hmnx hxmx
  simp only [is_hslT, inRange, FLOAT_ERROR, Bool.and_eq_true, decide_eq_true_eq]
  have hHbounds : ∀ w : ℚ, 0 - 5 / 10000000 ≤ qmod w 360 ∧ qmod w 360 < 360 :=
    fun w => ⟨by linarith [qmod_nonneg w 360 (by norm_num)],
      qmod_lt w 360 (by norm_num)⟩
  refine ⟨⟨⟨?_, ?_⟩, ?_, ?_⟩, ?_, ?_⟩
  · split_ifs with h1 h2 h3
    · norm_num
    · exact (hHbounds _).1
    · exact (hHbounds _).1
    · exact (hHbounds _).1
  · split_ifs with h1 h2 h3
    · norm_num
    · exact (hHbounds _).2
    · exact (hHbounds _).2
    · exact (hHbounds _).2
  · split_ifs with h1 h2
    · norm_num
    · have hlt : mn < mx := lt_of_le_of_ne hmnmx fun h => h1 h.symm
      have hL0 : 0 < 2 * ((mx + mn) / 2) := by linarith [lt_of_le_of_lt hmn0 hlt]
      have := div_nonneg (by linarith : (0:ℚ) ≤ mx - mn) (le_of_lt hL0)
      linarith
    · have hlt : mn < mx := lt_of_le_of_ne hmnmx fun h => h1 h.symm
      have hL1 : 0 < 2 - 2 * ((mx + mn) / 2) := by
        push_neg at h2
        linarith
      have := div_nonneg (by linarith : (0:ℚ) ≤ mx - mn) (le_of_lt hL1)
      linarith
  · split_ifs with h1 h2
    · norm_num
    · have hlt : mn < mx := lt_of_le_of_ne hmnmx fun h => h1 h.symm
      have hL0 : 0 < 2 * ((mx + mn) / 2) := by linarith [lt_of_le_of_lt hmn0 hlt]
      have hle : (mx - mn) / (2 * ((mx + mn) / 2)) ≤ 1 := by
        rw [div_le_one hL0]
        linarith
      linarith
    · have hlt : mn < mx := lt_of_le_of_ne hmnmx fun h => h1 h.symm
      have hL1 : 0 < 2 - 2 * ((mx + mn) / 2) := by
        push_neg at h2
        linarith
      have hle : (mx - mn) / (2 - 2 * ((mx + mn) / 2)) ≤ 1 := by
        rw [div_le_one hL1]
        linarith
      linarith
  · linarith
  · linarith

lemma addedSeq_eq_sum (frac : ℚ) (k : ℕ) :
    (Finset.range k).sum
        (fun i => if extraCond frac i (addedSeq frac i) then 1 else 0)
      = addedSeq frac k := by
  induction k with
  | zero => simp [addedSeq]
  | succ m ih =>
    rw [Finset.sum_range_succ, ih]
    rfl

lemma asNums_length : ∀ {xs : List PyVal} {l : List ℚ},
    asNums xs = some l → l.length = xs.length := by
  intro xs
  induction xs with
  | nil =>
    intro l h
    simp only [asNums, Option.some.injEq] at h
    rw [← h]
    rfl
  | cons v t ih =>
    intro l h
    simp only [asNums] at h
    rcases hv : asNum v with _ | q <;> rw [hv] at h
    · simp at h
    rcases ht : asNums t with _ | qs <;> rw [ht] at h
    · simp at h
    simp only [Option.some.injEq] at h
    rw [← h]
    simp [ih ht]

lemma asNumTriple_of_length {xs : List PyVal} (h : xs.length ≠ 3) :
    asNumTriple (.list xs) = none := by
  have hred : asNumTriple (.list xs)
      = (match asNums xs with
          | some [a, b, c] => some ((a : ℚ), b, c)
          | _ => none) := rfl
  rw [hred]
  rcases he : asNums xs with _ | l
  · rfl
  · have hlen : l.length = xs.length := asNums_length he
    rcases l with _ | ⟨x1, _ | ⟨x2, _ | ⟨x3, _ | ⟨x4, t⟩⟩⟩⟩
    · rfl
    · rfl
    · rfl
    · exfalso
      apply h
      simp only [List.length_cons, List.length_nil] at hlen
      omega
    · rfl

lemma asNumQuad_of_length {xs : List PyVal} (h : xs.length ≠ 4) :
    asNumQuad (.list xs) = none := by
  have hred : asNumQuad (.list xs)
      = (match asNums xs with
          | some [a, b, c, d] => some ((a : ℚ), b, c, d)
          | _ => none) := rfl
  rw [hred]
  rcases he : asNums xs with _ | l
  · rfl
  · have hlen : l.length = xs.length := asNums_length he
    rcases l with _ | ⟨x1, _ | ⟨x2, _ | ⟨x3, _ | ⟨x4, _ | ⟨x5, t⟩⟩⟩⟩⟩
    · rfl
    · rfl
    · rfl
    · rfl
    · exfalso
      apply h
      simp only [List.length_cons, List.length_nil] at hlen
      omega
    · rfl

/-! ## Claim theorems -/

/-- C1: for every ordered sequence of at least 2 anchor colors (each a valid
HSL triple) and every requested step count `n` at least the number of
anchors, `color_scale` returns exactly `n` colors, the first output equals
the first anchor, the last output equals the last anchor, and all anchors
appear in the output in their original order (as a sublist). -/
theorem color_scale_contract (colors : List HSL) (n : ℕ) (longer : Bool)
    (h2 : 2 ≤ colors.length) (hn : colors.length ≤ n)
    (hv : ∀ c ∈ colors, validHSL c) :
    ∃ out, color_scale colors n longer = .ok out ∧
      out.length = n ∧
      out.head? = colors.head? ∧
      out.getLast? = colors.getLast? ∧
      colors.Sublist out := by
  obtain ⟨hok, hlen, hsub, hhead, hlast⟩ := color_scale_ok colors n longer h2 hn hv
  exact ⟨_, hok, hlen, hhead, hlast, hsub⟩

/-- Witness for C1 at the concrete anchors (0,0,0), (120,1,1) and 5 steps. -/
theorem color_scale_contract_witness :
    2 ≤ ([(0, 0, 0), (120, 1, 1)] : List HSL).length ∧
    ([(0, 0, 0), (120, 1, 1)] : List HSL).length ≤ 5 ∧
    (∀ c ∈ ([(0, 0, 0), (120, 1, 1)] : List HSL), validHSL c) ∧
    ∃ out, color_scale [(0, 0, 0), (120, 1, 1)] 5 false = .ok out ∧
      out.length = 5 ∧
      out.head? = ([(0, 0, 0), (120, 1, 1)] : List HSL).head? ∧
      out.getLast? = ([(0, 0, 0), (120, 1, 1)] : List HSL).getLast? ∧
      ([(0, 0, 0), (120, 1, 1)] : List HSL).Sublist out := by
  have hv : ∀ c ∈ ([(0, 0, 0), (120, 1, 1)] : List HSL), validHSL c := by
    intro c hc
    rcases List.mem_cons.mp hc with rfl | hc2
    · exact ⟨by norm_num, by norm_num, by norm_num, by norm_num, by norm_num, by norm_num⟩
    rcases List.mem_cons.mp hc2 with rfl | hc3
    · exact ⟨by norm_num, by norm_num, by norm_num, by norm_num, by norm_num, by norm_num⟩
    · simp at hc3
  exact ⟨by norm_num, by norm_num, hv,
    color_scale_contract [(0, 0, 0), (120, 1, 1)] 5 false (by norm_num) (by norm_num) hv⟩

/-- C2: interpolating the anchors (0,1,0.5) and (360,1,0.5) over 4 steps
with the longer arc produces the full-circle hex sequence #f00, #0f0, #00f,
#f00; with the shorter arc every output stays red (#f00). -/
theorem hue_wraparound_scale :
    color_scale [(0, 1, 1/2), (360, 1, 1/2)] 4 true
        = .ok [(0, 1, 1/2), (120, 1, 1/2), (240, 1, 1/2), (0, 1, 1/2)] ∧
    ([(0, 1, 1/2), (120, 1, 1/2), (240, 1, 1/2), (0, 1, 1/2)] : List HSL).map hslHex
        = [.ok "#f00", .ok "#0f0", .ok "#00f", .ok "#f00"] ∧
    color_scale [(0, 1, 1/2), (360, 1, 1/2)] 4 false
        = .ok [(0, 1, 1/2), (0, 1, 1/2), (0, 1, 1/2), (0, 1, 1/2)] := by
  have hrange : List.range 4 = [0, 1, 2, 3] := rfl
  have hred : hslHex (0, 1, 1/2) = .ok "#f00" := by
    norm_num [hslHex, hsl2rgb, hsl2rgbCore, hue2rgb, rgb2hex, rgb2hexCore, toByte,
      roundHalfEven, is_hslT, is_rgbT, inRange, FLOAT_ERROR, hexDigitChar, Except.bind]
    decide
  have hgreen : hslHex (120, 1, 1/2) = .ok "#0f0" := by
    norm_num [hslHex, hsl2rgb, hsl2rgbCore, hue2rgb, rgb2hex, rgb2hexCore, toByte,
      roundHalfEven, is_hslT, is_rgbT, inRange, FLOAT_ERROR, hexDigitChar, Except.bind]
    decide
  have hblue : hslHex (240, 1, 1/2) = .ok "#00f" := by
    norm_num [hslHex, hsl2rgb, hsl2rgbCore, hue2rgb, rgb2hex, rgb2hexCore, toByte,
      roundHalfEven, is_hslT, is_rgbT, inRange, FLOAT_ERROR, hexDigitChar, Except.bind]
    decide
  refine ⟨?_, ?_, ?_⟩
  · norm_num [color_scale, scaleList, scaleGo, adjPairs, sectionColors, linspace,
      extraCond, roundTo7, roundHalfEven, qmod, zip3, is_hslT, inRange, FLOAT_ERROR, hrange]
  · simp only [List.map_cons, List.map_nil]
    rw [hred, hgreen, hblue]
  · norm_num [color_scale, scaleList, scaleGo, adjPairs, sectionColors, linspace,
      extraCond, roundTo7, roundHalfEven, qmod, zip3, is_hslT, inRange, FLOAT_ERROR, hrange]

/-- C3: `color_scale` fails with the invalid-input error when fewer than 2
anchors are given, or when the step count is smaller than the anchor count;
on every other input meeting the contract it succeeds without raising. -/
theorem color_scale_error_contract (colors : List HSL) (n : ℕ) (longer : Bool) :
    (colors.length < 2 →
      color_scale colors n longer
        = .error "At least two colours are required to make a scale.") ∧
    (2 ≤ colors.length → n < colors.length →
      color_scale colors n longer
        = .error "Number of steps must be greater than or equal to the number of colors.") ∧
    (2 ≤ colors.length → colors.length ≤ n → (∀ c ∈ colors, validHSL c) →
      ∃ out, color_scale colors n longer = .ok out) := by
  refine ⟨?_, ?_, ?_⟩
  · intro h
    simp only [color_scale]
    rw [if_pos h]
  · intro h2 hn
    simp only [color_scale]
    rw [if_neg (by omega), if_pos hn]
  · intro h2 hn hv
    exact ⟨_, (color_scale_ok colors n longer h2 hn hv).1⟩

/-- Witness for C3: the empty anchor list, a too-small step count, and a
valid call. -/
theorem color_scale_error_contract_witness :
    color_scale ([] : List HSL) 3 false
      = .error "At least two colours are required to make a scale." ∧
    color_scale [(0, 0, 0), (10, 0, 0)] 1 false
      = .error "Number of steps must be greater than or equal to the number of colors." ∧
    ∃ out, color_scale [(0, 0, 0), (10, 0, 0)] 2 false = .ok out := by
  have hv : ∀ c ∈ ([(0, 0, 0), (10, 0, 0)] : List HSL), validHSL c := by
    intro c hc
    rcases List.mem_cons.mp hc with rfl | hc2
    · exact ⟨by norm_num, by norm_num, by norm_num, by norm_num, by norm_num, by norm_num⟩
    rcases List.mem_cons.mp hc2 with rfl | hc3
    · exact ⟨by norm_num, by norm_num, by norm_num, by norm_num, by norm_num, by norm_num⟩
    · simp at hc3
  exact ⟨(color_scale_error_contract [] 3 false).1 (by norm_num),
    (color_scale_error_contract [(0, 0, 0), (10, 0, 0)] 1 false).2.1 (by norm_num) (by norm_num),
    (color_scale_error_contract [(0, 0, 0), (10, 0, 0)] 2 false).2.2 (by norm_num) (by norm_num) hv⟩

/-- C4: on a 3-element numeric sequence, `identify_color` fails as
ambiguous when both `is_rgb` and `is_hsl` hold, classifies to the rgb path
or the hsl identity path when exactly one holds, and fails as unrecognized
when neither holds. -/
theorem identify_color_three_element (xs : List PyVal) (h3 : xs.length = 3) :
    (is_rgb (.list xs) = true → is_hsl (.list xs) = true →
      identify_color (.list xs) = .error "Cannot determine whether color is RGB or HSL.") ∧
    (is_rgb (.list xs) = true → is_hsl (.list xs) = false →
      identify_color (.list xs) = .ok .rgbToHsl) ∧
    (is_rgb (.list xs) = false → is_hsl (.list xs) = true →
      identify_color (.list xs) = .ok .identityHsl) ∧
    (is_rgb (.list xs) = false → is_hsl (.list xs) = false →
      identify_color (.list xs) = .error "Cannot identify color.") := by
  refine ⟨?_, ?_, ?_, ?_⟩ <;> intro ha hb <;>
    simp [identify_color, isSeq, seqLen, isStr, isColorObj, h3, ha, hb]

/-- Witness for C4 at concrete ambiguous, rgb-only, hsl-only and
unrecognized triples. -/
theorem identify_color_three_element_witness :
    identify_color (.list [.num 0, .num 0, .num 0])
      = .error "Cannot determine whether color is RGB or HSL." ∧
    identify_color (.list [.num 0, .num (3/2), .num (1/2)]) = .ok .rgbToHsl ∧
    identify_color (.list [.num 300, .num 1, .num (1/2)]) = .ok .identityHsl ∧
    identify_color (.list [.num 400, .num (-1), .num 0])
      = .error "Cannot identify color." := by
  refine ⟨(identify_color_three_element [.num 0, .num 0, .num 0] rfl).1 ?_ ?_,
    (identify_color_three_element [.num 0, .num (3/2), .num (1/2)] rfl).2.1 ?_ ?_,
    (identify_color_three_element [.num 300, .num 1, .num (1/2)] rfl).2.2.1 ?_ ?_,
    (identify_color_three_element [.num 400, .num (-1), .num 0] rfl).2.2.2 ?_ ?_⟩ <;>
    norm_num [is_rgb, is_hsl, asNumTriple, asNums, asNum, is_rgbT, is_hslT, inRange,
      FLOAT_ERROR]

/-- C5 counterexample: the 4-element sequence (0, 2, 0, 1/2) satisfies
`is_rgba` but not `is_hsla`, yet `identify_color` does not classify it as
rgba: it fails with the unrecognized-input error, because the rgba/hsla
dispatch branches are commented out in the source. -/
theorem identify_color_four_element_counterexample :
    is_rgba (.list [.num 0, .num 2, .num 0, .num (1/2)]) = true ∧
    is_hsla (.list [.num 0, .num 2, .num 0, .num (1/2)]) = false ∧
    identify_color (.list [.num 0, .num 2, .num 0, .num (1/2)])
      = .error "Cannot identify color." := by
  refine ⟨?_, ?_, ?_⟩
  · norm_num [is_rgba, asNumQuad, asNums, asNum, is_rgbT, inRange, FLOAT_ERROR]
  · norm_num [is_hsla, asNumQuad, asNums, asNum, is_hslT, inRange, FLOAT_ERROR]
  · norm_num [identify_color, isSeq, seqLen, isStr, isColorObj, is_rgb, is_hsl,
      is_rgba, is_hsla, asNumTriple, asNumQuad, asNums, asNum, is_rgbT, is_hslT,
      inRange, FLOAT_ERROR]

/-- C5 amended: on a 4-element numeric sequence, `identify_color` fails as
ambiguous when both `is_rgba` and `is_hsla` hold; when exactly one of them
holds it does not classify the value but fails with the unrecognized-input
error (the rgba and hsla dispatch paths are disabled in the source). -/
theorem identify_color_four_element_amended (xs : List PyVal) (h4 : xs.length = 4) :
    (is_rgba (.list xs) = true → is_hsla (.list xs) = true →
      identify_color (.list xs) = .error "Cannot determine whether color is RGBA or HSLA.") ∧
    (is_rgba (.list xs) = true → is_hsla (.list xs) = false →
      identify_color (.list xs) = .error "Cannot identify color.") ∧
    (is_rgba (.list xs) = false → is_hsla (.list xs) = true →
      identify_color (.list xs) = .error "Cannot identify color.") := by
  obtain ⟨a, b, c, d, rfl⟩ : ∃ a b c d, xs = [a, b, c, d] := by
    rcases xs with _ | ⟨a, xs⟩
    · simp at h4
    rcases xs with _ | ⟨b, xs⟩
    · simp at h4
    rcases xs with _ | ⟨c, xs⟩
    · simp at h4
    rcases xs with _ | ⟨d, xs⟩
    · simp at h4
    rcases xs with _ | ⟨e, xs⟩
    · exact ⟨a, b, c, d, rfl⟩
    · simp at h4
  have hrgb : is_rgb (.list [a, b, c, d]) = false := by
    unfold is_rgb
    rw [asNumTriple_of_length (by simp)]
  have hhsl : is_hsl (.list [a, b, c, d]) = false := by
    unfold is_hsl
    rw [asNumTriple_of_length (by simp)]
  refine ⟨?_, ?_, ?_⟩ <;> intro ha hb <;>
    simp [identify_color, isSeq, seqLen, isStr, isColorObj, ha, hb, hrgb, hhsl]

/-- Witness for the amended C5 at a both-valid quadruple and an
rgba-only quadruple. -/
theorem identify_color_four_element_witness :
    identify_color (.list [.num 0, .num 0, .num 0, .num 0])
      = .error "Cannot determine whether color is RGBA or HSLA." ∧
    identify_color (.list [.num 100, .num 2, .num 0, .num 1])
      = .error "Cannot identify color." := by
  refine ⟨(identify_color_four_element_amended [.num 0, .num 0, .num 0, .num 0] rfl).1 ?_ ?_,
    (identify_color_four_element_amended [.num 100, .num 2, .num 0, .num 1] rfl).2.1 ?_ ?_⟩ <;>
    norm_num [is_rgba, is_hsla, asNumQuad, asNums, asNum, is_rgbT, is_hslT, inRange,
      FLOAT_ERROR]

/-- C6: the extra interior points are split by floor division with the
remainder going to the earliest sections whose accumulated fractional
remainder reaches 1: the `added` tally equals the floor of the accumulated
remainder (shifted by the round-to-7-places guard), the extra-point test
fires exactly when that floor steps up, every extra is granted after
`len(anchors) - 1` sections, and the per-section counts sum to
`n - len(anchors)`. -/
theorem extra_point_distribution (a n : ℕ) (h2 : 2 ≤ a) (hn : a ≤ n) :
    qmod (((n : ℚ) - (a : ℚ)) / ((a - 1 : ℕ) : ℚ)) 1
        = (((n - a) % (a - 1) : ℕ) : ℚ) / ((a - 1 : ℕ) : ℚ) ∧
    (∀ i : ℕ,
      ((addedSeq ((((n - a) % (a - 1) : ℕ) : ℚ) / ((a - 1 : ℕ) : ℚ)) i : ℕ) : ℤ)
        = ⌊(((n - a) % (a - 1) : ℕ) : ℚ) / ((a - 1 : ℕ) : ℚ) * (i : ℚ)
            + 1 / 20000000⌋) ∧
    (∀ i ad : ℕ,
      extraCond ((((n - a) % (a - 1) : ℕ) : ℚ) / ((a - 1 : ℕ) : ℚ)) i ad = true ↔
        (ad : ℚ) + 1 ≤ (((n - a) % (a - 1) : ℕ) : ℚ) / ((a - 1 : ℕ) : ℚ)
          * ((i : ℚ) + 1) + 1 / 20000000) ∧
    addedSeq ((((n - a) % (a - 1) : ℕ) : ℚ) / ((a - 1 : ℕ) : ℚ)) (a - 1)
        = (n - a) % (a - 1) ∧
    (a - 1) * ((n - a) / (a - 1)) + (n - a) % (a - 1) = n - a ∧
    (Finset.range (a - 1)).sum
        (fun i => (n - a) / (a - 1) +
          if extraCond ((((n - a) % (a - 1) : ℕ) : ℚ) / ((a - 1 : ℕ) : ℚ)) i
              (addedSeq ((((n - a) % (a - 1) : ℕ) : ℚ) / ((a - 1 : ℕ) : ℚ)) i)
            then 1 else 0)
        = n - a := by
  have hk : 0 < a - 1 := by omega
  have hkQ : (0 : ℚ) < ((a - 1 : ℕ) : ℚ) := by exact_mod_cast hk
  have hrk : (n - a) % (a - 1) < a - 1 := Nat.mod_lt _ hk
  have h0f : 0 ≤ (((n - a) % (a - 1) : ℕ) : ℚ) / ((a - 1 : ℕ) : ℚ) :=
    div_nonneg (Nat.cast_nonneg _) (le_of_lt hkQ)
  have h1f : (((n - a) % (a - 1) : ℕ) : ℚ) / ((a - 1 : ℕ) : ℚ) < 1 := by
    rw [div_lt_one hkQ]
    exact_mod_cast hrk
  refine ⟨?_, ?_, ?_, ?_, ?_, ?_⟩
  · rw [show (n : ℚ) - (a : ℚ) = ((n - a : ℕ) : ℚ) from (Nat.cast_sub hn).symm]
    exact qmod_natCast_div (n - a) (a - 1) hk
  · exact addedSeq_cast_eq _ h0f h1f
  · intro i ad
    exact extraCond_iff _ i ad
  · exact addedSeq_total _ _ hrk
  · have := Nat.div_add_mod (n - a) (a - 1)
    omega
  · rw [Finset.sum_add_distrib, Finset.sum_const, Finset.card_range, smul_eq_mul,
      addedSeq_eq_sum, addedSeq_total _ _ hrk]
    have := Nat.div_add_mod (n - a) (a - 1)
    omega

/-- Witness for C6 at 4 anchors and 9 steps (3 sections, remainder 2). -/
theorem extra_point_distribution_witness :
    qmod (((9 : ℚ) - (4 : ℚ)) / ((4 - 1 : ℕ) : ℚ)) 1
        = (((9 - 4) % (4 - 1) : ℕ) : ℚ) / ((4 - 1 : ℕ) : ℚ) ∧
    addedSeq ((((9 - 4) % (4 - 1) : ℕ) : ℚ) / ((4 - 1 : ℕ) : ℚ)) (4 - 1)
        = (9 - 4) % (4 - 1) ∧
    (4 - 1) * ((9 - 4) / (4 - 1)) + (9 - 4) % (4 - 1) = 9 - 4 ∧
    (Finset.range (4 - 1)).sum
        (fun i => (9 - 4) / (4 - 1) +
          if extraCond ((((9 - 4) % (4 - 1) : ℕ) : ℚ) / ((4 - 1 : ℕ) : ℚ)) i
              (addedSeq ((((9 - 4) % (4 - 1) : ℕ) : ℚ) / ((4 - 1 : ℕ) : ℚ)) i)
            then 1 else 0)
        = 9 - 4 := by
  obtain ⟨w1, _, _, w4, w5, w6⟩ :=
    extra_point_distribution 4 9 (by norm_num) (by norm_num)
  exact ⟨w1, w4, w5, w6⟩

/-- C7: for every valid RGB triple, converting to HSL and back succeeds
and reproduces every component within the FLOAT_ERROR tolerance (the
round-trip is in fact exact over the rationals). -/
theorem rgb_hsl_roundtrip (r g b : ℚ) (hr0 : 0 ≤ r) (hr1 : r ≤ 255) (hg0 : 0 ≤ g)
    (hg1 : g ≤ 255) (hb0 : 0 ≤ b) (hb1 : b ≤ 255) :
    ∃ hsl rgbOut, rgb2hsl (r, g, b) = .ok hsl ∧ hsl2rgb hsl = .ok rgbOut ∧
      |rgbOut.1 - r| ≤ FLOAT_ERROR ∧ |rgbOut.2.1 - g| ≤ FLOAT_ERROR ∧
      |rgbOut.2.2 - b| ≤ FLOAT_ERROR := by
  have hrgbT : is_rgbT r g b = true := by
    simp only [is_rgbT, inRange, FLOAT_ERROR, Bool.and_eq_true, decide_eq_true_eq]
    refine ⟨⟨⟨by linarith, by linarith⟩, by linarith, by linarith⟩, by linarith, by linarith⟩
  have hok1 : rgb2hsl (r, g, b) = .ok (rgb2hslCore r g b) := by
    simp [rgb2hsl, hrgbT]
  have hhslT := rgb2hslCore_valid r g b hr0 hr1 hg0 hg1 hb0 hb1
  have hok2 : hsl2rgb (rgb2hslCore r g b)
      = .ok (hsl2rgbCore (rgb2hslCore r g b).1 (rgb2hslCore r g b).2.1
          (rgb2hslCore r g b).2.2) := by
    simp [hsl2rgb, hhslT]
  rw [roundtrip_core r g b hr0 hr1 hg0 hg1 hb0 hb1] at hok2
  refine ⟨rgb2hslCore r g b, (r, g, b), hok1, hok2, ?_, ?_, ?_⟩ <;>
    norm_num [FLOAT_ERROR]

/-- Witness for C7 at the concrete RGB triple (10, 200, 40). -/
theorem rgb_hsl_roundtrip_witness :
    ∃ hsl rgbOut, rgb2hsl (10, 200, 40) = .ok hsl ∧ hsl2rgb hsl = .ok rgbOut ∧
      |rgbOut.1 - 10| ≤ FLOAT_ERROR ∧ |rgbOut.2.1 - 200| ≤ FLOAT_ERROR ∧
      |rgbOut.2.2 - 40| ≤ FLOAT_ERROR :=
  rgb_hsl_roundtrip 10 200 40 (by norm_num) (by norm_num) (by norm_num)
    (by norm_num) (by norm_num) (by norm_num)

lemma toByte_natCast (m : ℕ) : toByte (m : ℚ) = m := by
  unfold toByte
  rw [show ((m : ℕ) : ℚ) = ((m : ℤ) : ℚ) from by push_cast; ring,
    roundHalfEven_intCast]
  exact Int.toNat_natCast m

lemma hexDigitChar_injective : ∀ a : ℕ, a < 16 → ∀ b : ℕ, b < 16 →
    hexDigitChar a = hexDigitChar b → a = b := by decide

lemma rgb2hexCore_length (b1 b2 b3 : ℕ) (h1 : b1 < 256) (h2 : b2 < 256)
    (h3 : b3 < 256) :
    (rgb2hexCore ((b1 : ℚ), (b2 : ℚ), (b3 : ℚ)) true).length = 7 ∧
    ((b1 / 16 = b1 % 16 ∧ b2 / 16 = b2 % 16 ∧ b3 / 16 = b3 % 16) →
      (rgb2hexCore ((b1 : ℚ), (b2 : ℚ), (b3 : ℚ)) false).length = 4) ∧
    (¬ (b1 / 16 = b1 % 16 ∧ b2 / 16 = b2 % 16 ∧ b3 / 16 = b3 % 16) →
      (rgb2hexCore ((b1 : ℚ), (b2 : ℚ), (b3 : ℚ)) false).length = 7) := by
  refine ⟨?_, ?_, ?_⟩
  · simp [rgb2hexCore, toByte_natCast, String.length]
  · rintro ⟨e1, e2, e3⟩
    simp [rgb2hexCore, toByte_natCast, e1, e2, e3, String.length]
  · intro hne
    have hdiv1 : b1 / 16 < 16 := by omega
    have hdiv2 : b2 / 16 < 16 := by omega
    have hdiv3 : b3 / 16 < 16 := by omega
    have hmod1 : b1 % 16 < 16 := by omega
    have hmod2 : b2 % 16 < 16 := by omega
    have hmod3 : b3 % 16 < 16 := by omega
    rcases not_and_or.mp hne with hb | hrest
    · have hc : hexDigitChar (b1 / 16) ≠ hexDigitChar (b1 % 16) :=
        fun hc => hb (hexDigitChar_injective _ hdiv1 _ hmod1 hc)
      simp [rgb2hexCore, toByte_natCast, hc, String.length]
    rcases not_and_or.mp hrest with hb | hb
    · have hc : hexDigitChar (b2 / 16) ≠ hexDigitChar (b2 % 16) :=
        fun hc => hb (hexDigitChar_injective _ hdiv2 _ hmod2 hc)
      simp [rgb2hexCore, toByte_natCast, hc, String.length]
    · have hc : hexDigitChar (b3 / 16) ≠ hexDigitChar (b3 % 16) :=
        fun hc => hb (hexDigitChar_injective _ hdiv3 _ hmod3 hc)
      simp [rgb2hexCore, toByte_natCast, hc, String.length]

/-- C8: `rgb2hex` always emits 6 hex digits when force-long is requested,
emits the 3-digit shorthand exactly when every channel byte is a repeated
nibble and force-long is off, and on (0x11, 0x22, 0x33) yields "#123" by
default and "#112233" when forced long. -/
theorem rgb2hex_shorthand (b1 b2 b3 : ℕ) (h1 : b1 < 256) (h2 : b2 < 256)
    (h3 : b3 < 256) :
    (∃ s, rgb2hex ((b1 : ℚ), (b2 : ℚ), (b3 : ℚ)) true = .ok s ∧ s.length = 7) ∧
    ((b1 / 16 = b1 % 16 ∧ b2 / 16 = b2 % 16 ∧ b3 / 16 = b3 % 16) →
      ∃ s, rgb2hex ((b1 : ℚ), (b2 : ℚ), (b3 : ℚ)) false = .ok s ∧ s.length = 4) ∧
    (¬ (b1 / 16 = b1 % 16 ∧ b2 / 16 = b2 % 16 ∧ b3 / 16 = b3 % 16) →
      ∃ s, rgb2hex ((b1 : ℚ), (b2 : ℚ), (b3 : ℚ)) false = .ok s ∧ s.length = 7) ∧
    rgb2hex (17, 34, 51) false = .ok "#123" ∧
    rgb2hex (17, 34, 51) true = .ok "#112233" := by
  have hc1 : (b1 : ℚ) ≤ 255 := by exact_mod_cast Nat.le_of_lt_succ h1
  have hc2 : (b2 : ℚ) ≤ 255 := by exact_mod_cast Nat.le_of_lt_succ h2
  have hc3 : (b3 : ℚ) ≤ 255 := by exact_mod_cast Nat.le_of_lt_succ h3
  have hn1 : (0 : ℚ) ≤ (b1 : ℚ) := Nat.cast_nonneg b1
  have hn2 : (0 : ℚ) ≤ (b2 : ℚ) := Nat.cast_nonneg b2
  have hn3 : (0 : ℚ) ≤ (b3 : ℚ) := Nat.cast_nonneg b3
  have hVal : is_rgbT (b1 : ℚ) (b2 : ℚ) (b3 : ℚ) = true := by
    simp only [is_rgbT, inRange, FLOAT_ERROR, Bool.and_eq_true, decide_eq_true_eq]
    refine ⟨⟨⟨by linarith, by linarith⟩, by linarith, by linarith⟩, by linarith, by linarith⟩
  have hok : ∀ fl : Bool, rgb2hex ((b1 : ℚ), (b2 : ℚ), (b3 : ℚ)) fl
      = .ok (rgb2hexCore ((b1 : ℚ), (b2 : ℚ), (b3 : ℚ)) fl) := by
    intro fl
    simp [rgb2hex, hVal]
  obtain ⟨hlong, hshort, hnib⟩ := rgb2hexCore_length b1 b2 b3 h1 h2 h3
  refine ⟨⟨_, hok true, hlong⟩, fun he => ⟨_, hok false, hshort he⟩,
    fun he => ⟨_, hok false, hnib he⟩, ?_, ?_⟩
  · norm_num [rgb2hex, rgb2hexCore, toByte, roundHalfEven, is_rgbT, inRange, FLOAT_ERROR]
    decide
  · norm_num [rgb2hex, rgb2hexCore, toByte, roundHalfEven, is_rgbT, inRange, FLOAT_ERROR]
    decide

/-- Witness for C8 at the bytes (0x11, 0x22, 0x33) and (0x10, 0x22, 0x33). -/
theorem rgb2hex_shorthand_witness :
    (∃ s, rgb2hex ((17 : ℕ), ((34 : ℕ) : ℚ), ((51 : ℕ) : ℚ)) true = .ok s ∧ s.length = 7) ∧
    (∃ s, rgb2hex ((17 : ℕ), ((34 : ℕ) : ℚ), ((51 : ℕ) : ℚ)) false = .ok s ∧ s.length = 4) ∧
    (∃ s, rgb2hex ((16 : ℕ), ((34 : ℕ) : ℚ), ((51 : ℕ) : ℚ)) false = .ok s ∧ s.length = 7) := by
  obtain ⟨w1, w2, _⟩ := rgb2hex_shorthand 17 34 51 (by norm_num) (by norm_num) (by norm_num)
  obtain ⟨_, _, w3, _⟩ := rgb2hex_shorthand 16 34 51 (by norm_num) (by norm_num) (by norm_num)
  exact ⟨w1, w2 (by norm_num), w3 (by norm_num)⟩

/-- C9: every validator predicate is total on arbitrary Python values and
returns false (rather than raising) on non-sequences and wrong-arity
sequences; in the embedding exception freedom is totality of the Bool-valued
functions, so the content is the false-on-wrong-shape behaviour, checked
here for all nine validators together with the concrete vectors of
test_identify.py. -/
theorem validators_total (v : PyVal) :
    (asNumTriple v = none →
      is_rgb v = false ∧ is_rgbf v = false ∧ is_hsl v = false) ∧
    (asNumQuad v = none →
      is_rgba v = false ∧ is_rgbaf v = false ∧ is_hsla v = false) ∧
    ((∀ s, v ≠ .str s) →
      is_short_hex v = false ∧ is_long_hex v = false ∧ is_web v = false) ∧
    is_rgb (.str "30, 300, 0, 0") = false ∧
    is_rgb PyVal.other = false ∧
    is_rgb (.list [.num 30, .num 300, .num 0, .num 0]) = false ∧
    is_rgb (.list [.num 300, .num 0, .num 0]) = false ∧
    is_hsl (.list [.num 400, .num 0, .num 0]) = false ∧
    is_rgba (.list [.num 256, .num 0, .num 0, .num 0]) = false ∧
    is_web (.num 3) = false := by
  refine ⟨?_, ?_, ?_, rfl, rfl, rfl, ?_, ?_, ?_, rfl⟩
  · intro h
    unfold is_rgb is_rgbf is_hsl
    rw [h]
    exact ⟨rfl, rfl, rfl⟩
  · intro h
    unfold is_rgba is_rgbaf is_hsla
    rw [h]
    exact ⟨rfl, rfl, rfl⟩
  · intro h
    cases v with
    | str s => exact absurd rfl (h s)
    | num q => exact ⟨rfl, rfl, rfl⟩
    | colorVal c => exact ⟨rfl, rfl, rfl⟩
    | list xs => exact ⟨rfl, rfl, rfl⟩
    | other => exact ⟨rfl, rfl, rfl⟩
  · norm_num [is_rgb, asNumTriple, asNums, asNum, is_rgbT, inRange, FLOAT_ERROR]
  · norm_num [is_hsl, asNumTriple, asNums, asNum, is_hslT, inRange, FLOAT_ERROR]
  · norm_num [is_rgba, asNumQuad, asNums, asNum, is_rgbT, inRange, FLOAT_ERROR]

/-- Witness for C9 at a non-sequence value. -/
theorem validators_total_witness :
    is_rgb PyVal.other = false ∧ is_rgbf PyVal.other = false ∧
    is_hsl PyVal.other = false ∧ is_rgba PyVal.other = false ∧
    is_rgbaf PyVal.other = false ∧ is_hsla PyVal.other = false ∧
    is_short_hex PyVal.other = false ∧ is_long_hex PyVal.other = false ∧
    is_web PyVal.other = false := by
  obtain ⟨t1, t2, t3, _⟩ := validators_total PyVal.other
  obtain ⟨a1, a2, a3⟩ := t1 rfl
  obtain ⟨b1, b2, b3⟩ := t2 rfl
  obtain ⟨c1, c2, c3⟩ := t3 fun s h => PyVal.noConfusion h
  exact ⟨a1, a2, a3, b1, b2, b3, c1, c2, c3⟩

/-- C10: `Color.__eq__` compared with another `Color` or `Colour` object is
decided by the left operand's configurable equality strategy; compared with
any non-Color value it raises `NotImplementedError` instead of returning
false. -/
theorem color_eq_dispatch (c o : ColorObj) (s : String) (q : ℚ) (xs : List PyVal) :
    colorEq c (.colorVal o) = .ok (c.equality c.data o.data) ∧
    colorEq c (.str s) = .error "Other object must be of type `Color` or `Colour`" ∧
    colorEq c (.num q) = .error "Other object must be of type `Color` or `Colour`" ∧
    colorEq c (.list xs) = .error "Other object must be of type `Color` or `Colour`" ∧
    colorEq c PyVal.other = .error "Other object must be of type `Color` or `Colour`" :=
  ⟨rfl, rfl, rfl, rfl, rfl⟩

end Colourings
